import Mathlib

/-! # sg-core: the Prometheus scrape sink and the host entrypoint

A shallow embedding of `plugins/application/prometheus/main.go` (the collector
cache, its scrape path and the per-metric delete gate), of the startup
sequence of `cmd/main.go` and of `setCamelCase` of `pkg/config/config.go`,
followed by the properties proved about them.

Conventions of the embedding:

* a Go `string` is a Lean `String`, `len(xs)` of a slice is `List.length`; where
  the code works on the bytes of a string (`setCamelCase`), the string is the
  list of its bytes;
* a Go `float64` is carried as its IEEE-754 bit pattern (`Float64`); the only
  float operation the code performs is the comparison `Time == 0`;
* `time.Duration` is an `Int` (nanoseconds) in the range of an int64, with
  products wrapped by `wrapInt64`; `time.Time` is a `Nat` instant, and
  `time.Now()` is an explicit argument `now`;
* a `sync.Map` is an association list without duplicate keys; `Range` visits
  it in list order; a value stored as a pointer and mutated through it is
  modelled by rewriting the entry under its key (`syncMap.mutate`);
* mutexes are not modelled: every operation is atomic, as it is under the
  sink-wide lock of `ReceiveMetric`;
* calls to the logger do not touch the state and are left out of the sink
  model; they are recorded for `cmd/main.go`, where they are the visible
  output.
-/

namespace SgCore

/-! ## Basic types -/

/-- Go `float64`, given by its IEEE-754 binary64 bit pattern (taken modulo `2^64`). -/
structure Float64 where
  bits : Nat
deriving DecidableEq, Repr

/-- The Go comparison `f == 0`: true for `+0` and `-0` (all bits but the sign are
zero), false for every other value, NaN included. -/
def Float64.isZero (f : Float64) : Bool :=
  f.bits % 2 ^ 64 % 2 ^ 63 == 0

/-- Go `time.Duration`: a signed count of nanoseconds, an int64. -/
abbrev Duration := Int

/-- The int64 that Go arithmetic yields for the exact result `x`: it wraps modulo
`2^64` into the range from `-2^63` to `2^63 - 1`. -/
def wrapInt64 (x : Int) : Int :=
  (x + 2 ^ 63) % 2 ^ 64 - 2 ^ 63

/-! ## sync.Map -/

/-- A `sync.Map` as an association list; `Range` order is the list order. -/
abbrev syncMap (κ : Type) (υ : Type) := List (κ × υ)

namespace syncMap

variable {κ υ : Type} [DecidableEq κ]

/-- The `Load` method: the value stored under `k`, if any. -/
def Load : syncMap κ υ → κ → Option υ
  | [], _ => none
  | (k', v) :: m, k => if k' = k then some v else Load m k

/-- The `Store` method: overwrite the entry under `k`, or add one. -/
def Store : syncMap κ υ → κ → υ → syncMap κ υ
  | [], k, v => [(k, v)]
  | (k', v') :: m, k, v => if k' = k then (k, v) :: m else (k', v') :: Store m k v

/-- The `LoadOrStore` method: the existing value and `true` when `k` is present,
otherwise store `v` and return it with `false`. -/
def LoadOrStore (m : syncMap κ υ) (k : κ) (v : υ) : syncMap κ υ × υ × Bool :=
  match Load m k with
  | some a => (m, a, true)
  | none => (Store m k v, v, false)

/-- The `Delete` method: drop the entry under `k`. -/
def Delete (m : syncMap κ υ) (k : κ) : syncMap κ υ :=
  m.filter (fun kv => decide (kv.1 ≠ k))

/-- A write through the pointer stored under `k`: the pointee becomes `f` of it. -/
def mutate : syncMap κ υ → κ → (υ → υ) → syncMap κ υ
  | [], _, _ => []
  | (k', v) :: m, k, f =>
    if k' = k then (k', f v) :: mutate m k f else (k', v) :: mutate m k f

/-- The keys in `Range` order. -/
def keys (m : syncMap κ υ) : List κ := m.map Prod.fst

end syncMap

/-- The helper `syncMapLen`: counts the entries by ranging over them. -/
def syncMapLen {κ υ : Type} (m : syncMap κ υ) : Nat :=
  m.foldl (fun count _ => count + 1) 0

/-! ## pkg/data and the client library types -/

namespace data

/-- Modelled from the spec: `pkg/data` is not among the sources; the metric type
tag is one of COUNTER, GAUGE, UNTYPED. -/
inductive MetricType where
  | COUNTER
  | GAUGE
  | UNTYPED
deriving DecidableEq, Repr

/-- Modelled from the spec: `data.Metric` of `pkg/data`, with the fields that
`UpdateMetrics` assigns (`Typ` is the Go field `Type`). -/
structure Metric where
  Name : String
  LabelKeys : List String
  LabelVals : List String
  Time : Float64
  Typ : MetricType
  Interval : Duration
  Value : Float64
deriving DecidableEq, Repr

end data

namespace prometheus

/-- The exporter library value types. -/
inductive ValueType where
  | CounterValue
  | GaugeValue
  | UntypedValue
deriving DecidableEq, Repr

/-- A descriptor as `NewDesc(fqName, help, variableLabels, nil)` builds it. -/
structure Desc where
  fqName : String
  help : String
  variableLabels : List String
deriving DecidableEq, Repr

/-- The call `prometheus.NewDesc(name, help, labelKeys, nil)`. -/
def NewDesc (fqName help : String) (variableLabels : List String) : Desc :=
  { fqName := fqName, help := help, variableLabels := variableLabels }

/-- What is sent on the scrape channel: a constant metric, bare or wrapped by
`NewMetricWithTimestamp`. The timestamp is `time.Unix(int64(t), 0)` of the series
time `t`, which is recorded here as `t` itself. -/
structure Metric where
  desc : Desc
  valueType : ValueType
  value : Float64
  labelValues : List String
  timestamp : Option Float64
deriving DecidableEq, Repr

/-- The error check of the library constructor `NewConstMetric`: `true` when
it returns an error for these arguments. The library is an external dependency,
so the check is an argument of the scrape path. -/
abbrev ConstMetricErr := Desc → ValueType → Float64 → List String → Bool

/-- The library call `NewConstMetric`: fails when the check `err` does, otherwise a
metric without timestamp carrying the arguments. -/
def NewConstMetric (err : ConstMetricErr) (desc : Desc) (valueType : ValueType)
    (value : Float64) (labelValues : List String) : Option Metric :=
  if err desc valueType value labelValues then none
  else some { desc := desc, valueType := valueType, value := value,
              labelValues := labelValues, timestamp := none }

/-- The library call `NewMetricWithTimestamp(time.Unix(int64(t), 0), m)`. -/
def NewMetricWithTimestamp (t : Float64) (m : Metric) : Metric :=
  { m with timestamp := some t }

/-- Two checks of the library constructor that hold in every release: the
descriptor is in error when its label names repeat, and the number of label values
must equal the number of label names of the descriptor. -/
def cardinalityErr : ConstMetricErr :=
  fun desc _ _ labelValues =>
    !(decide desc.variableLabels.Nodup) || decide (labelValues.length ≠ desc.variableLabels.length)

end prometheus

/-- The table `typeToPromType`. -/
def typeToPromType : data.MetricType → prometheus.ValueType
  | .COUNTER => .CounterValue
  | .GAUGE => .GaugeValue
  | .UNTYPED => .UntypedValue

/-! ## The expiry engine -/

/-- What a registered expirable refers to: the per-metric token captures the
collector (named by its dimension) and the cache key; the collector token
captures the collector. -/
inductive Expirable where
  | metric (dimensions : Nat) (cacheKey : String)
  | collector (dimensions : Nat)
deriving DecidableEq, Repr

/-- Modelled from the spec: `expiryProc` (the expiry engine of the plugin) is not
among the sources; it has a tick interval and a set of registered expirables. -/
structure expiryProc where
  interval : Duration
  entries : List Expirable
deriving DecidableEq, Repr

/-- Modelled from the spec: `newExpiryProc(interval)` has no expirable yet. -/
def newExpiryProc (interval : Duration) : expiryProc :=
  { interval := interval, entries := [] }

/-- Modelled from the spec: `register(e)` adds an expirable. -/
def expiryProc.register (ep : expiryProc) (e : Expirable) : expiryProc :=
  { ep with entries := ep.entries ++ [e] }

/-! ## The collector -/

/-- The struct `metricExpiry`: the last arrival and the cache key captured by its
`delete` closure (the closure itself is `PromCollector.delete`). -/
structure metricExpiry where
  lastArrival : Nat
  cacheKey : String
deriving DecidableEq, Repr

/-- The method `keepAlive`. -/
def metricExpiry.keepAlive (me : metricExpiry) (now : Nat) : metricExpiry :=
  { me with lastArrival := now }

/-- The method `Expired`: `time.Since(lastArrival) >= interval`. -/
def metricExpiry.Expired (me : metricExpiry) (now : Nat) (interval : Duration) : Bool :=
  decide (interval ≤ (now : Int) - (me.lastArrival : Int))

/-- The struct `metricProcess`. -/
structure metricProcess where
  description : prometheus.Desc
  expiry : metricExpiry
  metric : data.Metric
  scrapped : Bool
deriving DecidableEq, Repr

/-- The struct `PromCollector` (without its logger). -/
structure PromCollector where
  mProc : syncMap String metricProcess
  dimensions : Nat
  withtimestamp : Bool
  cacheindexbuilder : String
deriving DecidableEq, Repr

/-- The constructor `NewPromCollector`: zero values for the map and the builder. -/
def NewPromCollector (dimensions : Nat) (withtimestamp : Bool) : PromCollector :=
  { mProc := [], dimensions := dimensions, withtimestamp := withtimestamp,
    cacheindexbuilder := "" }

namespace PromCollector

/-- The method `Describe`: the descriptors sent on the channel. -/
def Describe (pc : PromCollector) : List prometheus.Desc :=
  pc.mProc.map (fun kv => kv.2.description)

/-- The body of the `Range` callback of `Collect` for one entry: the entry after
the visit and what the visit sends on the channel. -/
def collectVisit (err : prometheus.ConstMetricErr) (withtimestamp : Bool)
    (mProc : metricProcess) : metricProcess × List prometheus.Metric :=
  let mProc := { mProc with scrapped := true }
  match prometheus.NewConstMetric err mProc.description (typeToPromType mProc.metric.Typ)
      mProc.metric.Value mProc.metric.LabelVals with
  | none => (mProc, [])
  | some pMetric =>
    if withtimestamp then
      if mProc.metric.Time.isZero then (mProc, [pMetric])
      else (mProc, [prometheus.NewMetricWithTimestamp mProc.metric.Time pMetric])
    else (mProc, [pMetric])

/-- The method `Collect`: visits every entry in `Range` order; returns the
collector afterwards and the metrics sent on the channel, in order. -/
def Collect (err : prometheus.ConstMetricErr) (pc : PromCollector) :
    PromCollector × List prometheus.Metric :=
  ({ pc with mProc := pc.mProc.map (fun kv => (kv.1, (collectVisit err pc.withtimestamp kv.2).1)) },
   pc.mProc.flatMap (fun kv => (collectVisit err pc.withtimestamp kv.2).2))

/-- The method `Dimensions`. -/
def Dimensions (pc : PromCollector) : Nat := pc.dimensions

/-- The `delete` closure of the `metricExpiry` created by `UpdateMetrics` on `pc`
for `cacheKey`: the collector afterwards and the returned flag. -/
def delete (pc : PromCollector) (cacheKey : String) : PromCollector × Bool :=
  match pc.mProc.Load cacheKey with
  | none => (pc, false)
  | some mp =>
    if mp.scrapped then ({ pc with mProc := pc.mProc.Delete cacheKey }, true)
    else (pc, false)

/-- The builder after `WriteString(name)` and `WriteString(v)` for every label
value (`Grow` only reserves capacity). -/
def writeKey (builder : String) (name : String) (labelVals : List String) : String :=
  labelVals.foldl (fun b v => b ++ v) (builder ++ name)

/-- The local `cacheKey` of `UpdateMetrics`: the content of the shared builder after
the writes. -/
def cacheKey (pc : PromCollector) (name : String) (labelVals : List String) : String :=
  writeKey pc.cacheindexbuilder name labelVals

/-- The method `UpdateMetrics`, with `time.Now()` as `now`: the collector and the
expiry engine afterwards. -/
def UpdateMetrics (pc : PromCollector) (name : String) (time : Float64)
    (typ : data.MetricType) (interval : Duration) (value : Float64)
    (labelKeys labelVals : List String) (ep : expiryProc) (now : Nat) :
    PromCollector × expiryProc :=
  let cacheKey := pc.cacheKey name labelVals
  match pc.mProc.Load cacheKey with
  | none =>
    let (m, mProc, _) := pc.mProc.LoadOrStore cacheKey
      { metric := { Name := name, LabelKeys := labelKeys, LabelVals := labelVals,
                    Time := time, Typ := typ, Interval := interval, Value := value },
        description := prometheus.NewDesc name "" labelKeys,
        expiry := { lastArrival := 0, cacheKey := cacheKey },
        scrapped := false }
    let ep := ep.register (.metric pc.dimensions mProc.expiry.cacheKey)
    let m := syncMap.mutate m cacheKey
      (fun mp => { mp with expiry := mp.expiry.keepAlive now })
    ({ pc with mProc := m, cacheindexbuilder := "" }, ep)
  | some _ =>
    let m := syncMap.mutate pc.mProc cacheKey (fun mProc =>
      { description := mProc.description,
        metric := { Name := name, LabelKeys := labelKeys, LabelVals := labelVals,
                    Time := time, Typ := typ, Interval := mProc.metric.Interval,
                    Value := value },
        expiry := mProc.expiry.keepAlive now,
        scrapped := mProc.scrapped })
    ({ pc with mProc := m, cacheindexbuilder := "" }, ep)

end PromCollector

/-- The method `metricExpiry.Delete`: runs the `delete` closure, which was built over
the collector `pc` and captured the cache key. -/
def metricExpiry.Delete (me : metricExpiry) (pc : PromCollector) : PromCollector × Bool :=
  pc.delete me.cacheKey

/-! ## The sink -/

/-- The struct `configT`. -/
structure configT where
  Host : String
  Port : Int
  WithTimestamp : Bool
  ExpirationMultiple : Int
deriving DecidableEq, Repr

/-- The struct `Prometheus` (without logger, context and mutex); the registry is
the list of the registered collectors, named by their dimensions. -/
structure Prometheus where
  configuration : configT
  collectors : syncMap Nat PromCollector
  metricExpiryProcs : syncMap Duration expiryProc
  collectorExpiryProc : expiryProc
  registry : List Nat
deriving DecidableEq, Repr

/-- The constructor `New`, with the empty registry that `Run` installs. -/
def New : Prometheus :=
  { configuration := { Host := "127.0.0.1", Port := 3000, WithTimestamp := false,
                       ExpirationMultiple := 2 },
    collectors := [],
    metricExpiryProcs := [],
    collectorExpiryProc := newExpiryProc (10 * 1000000000),
    registry := [] }

namespace Prometheus

/-- The first half of `ReceiveMetric`: load the collector for `labelLen`, or create,
store and register one. Returns the sink afterwards and the collector. -/
def loadCollector (p : Prometheus) (labelLen : Nat) : Prometheus × PromCollector :=
  match p.collectors.Load labelLen with
  | none =>
    let (collectors, promCol, _) := p.collectors.LoadOrStore labelLen
      (NewPromCollector labelLen p.configuration.WithTimestamp)
    ({ p with collectors := collectors,
              collectorExpiryProc := p.collectorExpiryProc.register (.collector labelLen),
              registry := p.registry ++ [labelLen] }, promCol)
  | some pc => (p, pc)

/-- The second half of `ReceiveMetric`: load the expiry engine for `interval`, or
create and store one (its goroutine is not part of the state). The product
`interval*time.Duration(ExpirationMultiple)` is an int64 product and wraps. -/
def loadExpiryProc (p : Prometheus) (interval : Duration) : Prometheus × expiryProc :=
  match p.metricExpiryProcs.Load interval with
  | none =>
    let (procs, ep, _) := p.metricExpiryProcs.LoadOrStore interval
      (newExpiryProc (wrapInt64 (interval * p.configuration.ExpirationMultiple)))
    ({ p with metricExpiryProcs := procs }, ep)
  | some ep => (p, ep)

/-- The method `ReceiveMetric`, with `time.Now()` as `now`. The collector and the
expiry engine are held by pointer, so what `UpdateMetrics` does to them is written
back under their keys. -/
def ReceiveMetric (p : Prometheus) (name : String) (t : Float64) (typ : data.MetricType)
    (interval : Duration) (value : Float64) (labelKeys labelVals : List String)
    (now : Nat) : Prometheus :=
  let labelLen := labelKeys.length
  let (p, promCol) := p.loadCollector labelLen
  let (p, expProc) := p.loadExpiryProc interval
  let (promCol, expProc) :=
    promCol.UpdateMetrics name t typ interval value labelKeys labelVals expProc now
  { p with collectors := p.collectors.Store labelLen promCol,
           metricExpiryProcs := p.metricExpiryProcs.Store interval expProc }

/-- Every series entry the sink holds, collector by collector. -/
def series (p : Prometheus) : List (String × metricProcess) :=
  p.collectors.flatMap (fun kv => kv.2.mProc)

end Prometheus

/-- One `ReceiveMetric` call: its arguments. -/
structure MetricCall where
  name : String
  t : Float64
  typ : data.MetricType
  interval : Duration
  value : Float64
  labelKeys : List String
  labelVals : List String
  now : Nat
deriving DecidableEq, Repr

/-- The sink after one call. -/
def Prometheus.receive (p : Prometheus) (c : MetricCall) : Prometheus :=
  p.ReceiveMetric c.name c.t c.typ c.interval c.value c.labelKeys c.labelVals c.now

/-- The sink after a sequence of calls, first to last. -/
def Prometheus.receiveAll (p : Prometheus) (cs : List MetricCall) : Prometheus :=
  cs.foldl Prometheus.receive p

/-! ## Sequences of operations on one collector -/

/-- One operation on a collector: an `UpdateMetrics` call (its arguments and the
expiry engine it is handed), a `Collect`, or a call of the per-metric `Delete` of the
series registered under a cache key. -/
inductive Step where
  | update (c : MetricCall) (ep : expiryProc)
  | collect
  | delete (cacheKey : String)
deriving DecidableEq, Repr

namespace PromCollector

/-- The collector after one operation. -/
def step (err : prometheus.ConstMetricErr) (pc : PromCollector) : Step → PromCollector
  | .update c ep =>
    (pc.UpdateMetrics c.name c.t c.typ c.interval c.value c.labelKeys c.labelVals ep c.now).1
  | .collect => (pc.Collect err).1
  | .delete cacheKey => (pc.delete cacheKey).1

/-- The collector after a sequence of operations, first to last. -/
def exec (err : prometheus.ConstMetricErr) (pc : PromCollector) (steps : List Step) :
    PromCollector :=
  steps.foldl (step err) pc

end PromCollector

/-! ## cmd/main.go -/

namespace Cmd

/-- A non-nil error of `manager.InitApplication`: one that `errors.Is` matches
with `manager.ErrAppNotReceiver`, or any other. -/
inductive InitError where
  | ErrAppNotReceiver
  | other
deriving DecidableEq, Repr

/-- An entry of `configuration.Transports` with what the manager (not among the
sources) returns for it: whether `InitTransport` and `SetTransportHandlers` fail. -/
structure Transport where
  Name : String
  initFails : Bool
  handlersFail : Bool
deriving DecidableEq, Repr

/-- An entry of `configuration.Applications` with what `manager.InitApplication`
(not among the sources) returns for it. -/
structure Application where
  Name : String
  init : Option InitError
deriving DecidableEq, Repr

/-- What `main` is started with: the outcome of every call it makes outside
this file. -/
structure Env where
  loggerFails : Bool
  cpuprofile : Option (Bool × Bool)
  openFails : Bool
  parseFails : Bool
  Transports : List Transport
  Applications : List Application
deriving DecidableEq, Repr

/-- What `main` does that is visible from outside, in order. -/
inductive Event where
  | printf (msg : String)
  | error (msg : String)
  | warn (msg : String)
  | info (msg : String)
  | InitTransport (name : String)
  | SetTransportHandlers (name : String)
  | InitApplication (name : String)
  | RunTransports
  | RunApplications
  | SpawnSignalHandler
deriving DecidableEq, Repr

/-- The events of a run of `main` and the exit code of the process. -/
structure Outcome where
  events : List Event
  exitCode : Nat
deriving DecidableEq, Repr

/-- The body of the loop over `configuration.Transports`. -/
def transportStep (events : List Event) (tConfig : Transport) : List Event :=
  let events := events ++ [.InitTransport tConfig.Name]
  if tConfig.initFails then events ++ [.error "failed configuring transport"]
  else
    let events := events ++ [.SetTransportHandlers tConfig.Name]
    if tConfig.handlersFail then events ++ [.error "transport handlers failed to load"]
    else events ++ [.info "loaded transport"]

/-- The body of the loop over `configuration.Applications`, on the pair of the
variable `err` of `main` and the events so far. The warning is `err.Error()`, the
text of the manager error, written here as its name. -/
def applicationStep (st : Option InitError × List Event) (aConfig : Application) :
    Option InitError × List Event :=
  let events := st.2 ++ [.InitApplication aConfig.Name]
  let err := aConfig.init
  match err with
  | some .ErrAppNotReceiver =>
    (err, events ++ [.warn "ErrAppNotReceiver", .info "loaded application plugin"])
  | some .other => (err, events ++ [.error "failed configuring application"])
  | none => (err, events ++ [.info "loaded application plugin"])

/-- The function `main`, from the creation of the logger on. Returning from `main`
ends the process with exit code 0; the code never calls `os.Exit`. The wait for
`pluginDone` or the interrupt is taken to end. -/
def main (env : Env) : Outcome :=
  if env.loggerFails then
    { events := [.printf "failed initializing logger"], exitCode := 0 }
  else
    let events : List Event :=
      match env.cpuprofile with
      | none => []
      | some (createFails, startFails) =>
        (if createFails then [Event.error "failed to start cpu profile"] else []) ++
        (if startFails then [Event.error "failed to start cpu profile"] else [])
    if env.openFails then
      { events := events ++ [.error "failed opening configuration file"], exitCode := 0 }
    else if env.parseFails then
      { events := events ++ [.error "failed parsing config file"], exitCode := 0 }
    else
      let events := env.Transports.foldl transportStep events
      let (err, events) := env.Applications.foldl applicationStep (none, events)
      match err with
      | some _ => { events := events, exitCode := 0 }
      | none =>
        { events := events ++ [.RunTransports, .RunApplications, .SpawnSignalHandler,
                               .info "sg-core exited cleanly"],
          exitCode := 0 }

end Cmd

/-! ## pkg/config/config.go -/

namespace config

/-- A Go string or byte slice as the list of its bytes, which are the numbers below
256. The function `setCamelCase` indexes and overwrites single bytes, so the bytes
and not the characters are what it sees. -/
abbrev Bytes := List Nat

/-- The byte of the separator `"."`. -/
def dot : Nat := 46

/-- The call `strings.Split(s, ".")`: the pieces between the separators, one more
than there are separators; the empty string gives one empty piece. -/
def Split : Bytes → List Bytes
  | [] => [[]]
  | c :: cs =>
    if c = dot then [] :: Split cs
    else
      match Split cs with
      | [] => [[c]]
      | item :: items => (c :: item) :: items

/-- The call `strings.Join(items, ".")`. -/
def Join : List Bytes → Bytes
  | [] => []
  | item :: items =>
    match items with
    | [] => item
    | _ :: _ => item ++ dot :: Join items

/-- The call `bytes.ToLower([]byte{c})` of the standard library on a slice of one byte.
An ASCII byte is lowered when it is an upper-case letter. A byte from `0x80` on is not
a UTF-8 sequence by itself: the library decodes it as `U+FFFD`, which has no lower
case, and returns the three bytes `EF BF BD` that encode it. -/
def ToLowerByte (c : Nat) : Bytes :=
  if c < 128 then
    if 65 ≤ c ∧ c ≤ 90 then [c + 32] else [c]
  else [239, 191, 189]

/-- One round of the loop of `setCamelCase`: `camel[0]` is replaced by `l[0]`; an index
out of range (an empty item) makes the function fail. -/
def camelItem (item : Bytes) : Option Bytes :=
  match item with
  | [] => none
  | c :: rest =>
    match ToLowerByte c with
    | [] => none
    | l₀ :: _ => some (l₀ :: rest)

/-- The loop of `setCamelCase` over the items: the slice `ret`, or a failure at the
first item the round fails on. -/
def camelItems : List Bytes → Option (List Bytes)
  | [] => some []
  | item :: items =>
    match camelItem item with
    | none => none
    | some camel =>
      match camelItems items with
      | none => none
      | some ret => some (camel :: ret)

/-- The function `setCamelCase`; `none` when it panics. -/
def setCamelCase (field : Bytes) : Option Bytes :=
  match camelItems (Split field) with
  | none => none
  | some ret =>
    match ret with
    | [] => none
    | _ :: rest => some (Join rest)

/-- ASCII lower case of one byte: the letters `A` to `Z` move to `a` to `z`, every
other byte stays. -/
def asciiLower (c : Nat) : Nat :=
  if 65 ≤ c ∧ c ≤ 90 then c + 32 else c

/-- An item with its first byte in ASCII lower case and the other bytes as they are. -/
def lowerFirst : Bytes → Bytes
  | [] => []
  | c :: rest => asciiLower c :: rest

/-- The result the description of `setCamelCase` states, not taken from the code: the
components after the first, each with its first byte in ASCII lower case, joined by
`"."`. -/
def setCamelCaseStated (field : Bytes) : Bytes :=
  Join ((Split field).tail.map lowerFirst)

/-- The bytes of a string of ASCII characters. -/
def ascii (s : String) : Bytes := s.toList.map Char.toNat

end config

/-! ## Concrete inputs used below -/

namespace Example

/-- An expiry engine for a ten second interval with the default multiple. -/
def ep10 : expiryProc := newExpiryProc (2 * 10000000000)

/-- A gauge sample `m{a="1"} = 17` observed at time 1000. -/
def callA : MetricCall :=
  { name := "m", t := ⟨1000⟩, typ := .GAUGE, interval := 10000000000, value := ⟨17⟩,
    labelKeys := ["a"], labelVals := ["1"], now := 5 }

/-- A later sample of the same name and label value, sent with the label key `b`. -/
def callB : MetricCall :=
  { name := "m", t := ⟨1001⟩, typ := .GAUGE, interval := 10000000000, value := ⟨18⟩,
    labelKeys := ["b"], labelVals := ["1"], now := 6 }

/-- A sample of the same name with two labels, `m{a="1",b="2"} = 3`. -/
def callTwo : MetricCall :=
  { name := "m", t := ⟨1002⟩, typ := .GAUGE, interval := 10000000000, value := ⟨3⟩,
    labelKeys := ["a", "b"], labelVals := ["1", "2"], now := 7 }

/-- A collector of dimension 1 that stamps its metrics, after `callA`. -/
def pcA : PromCollector :=
  ((NewPromCollector 1 true).UpdateMetrics callA.name callA.t callA.typ callA.interval
    callA.value callA.labelKeys callA.labelVals ep10 callA.now).1

/-- The metric a scrape of `pcA` emits. -/
def metricA : prometheus.Metric :=
  { desc := prometheus.NewDesc "m" "" ["a"], valueType := .GaugeValue, value := ⟨17⟩,
    labelValues := ["1"], timestamp := some ⟨1000⟩ }

/-- The same name and label key with the name and label value `ab`, `c`. -/
def callAbC : MetricCall :=
  { name := "ab", t := ⟨1000⟩, typ := .GAUGE, interval := 10000000000, value := ⟨1⟩,
    labelKeys := ["k"], labelVals := ["c"], now := 5 }

/-- Another series: the name and label value `a`, `bc`. -/
def callABc : MetricCall :=
  { name := "a", t := ⟨1001⟩, typ := .COUNTER, interval := 10000000000, value := ⟨2⟩,
    labelKeys := ["k"], labelVals := ["bc"], now := 6 }

/-- A sample whose two label keys are the same name; the library rejects the
descriptor, so no exporter metric can be built for the series. -/
def callDup : MetricCall :=
  { name := "m", t := ⟨1000⟩, typ := .GAUGE, interval := 10000000000, value := ⟨17⟩,
    labelKeys := ["a", "a"], labelVals := ["1", "2"], now := 5 }

/-- A series is created and scraped once. -/
def stepsScraped : List Step := [.update callA ep10, .collect]

/-- A series is created, scraped once and updated again. -/
def stepsUpdatedAfterScrape : List Step :=
  [.update callA ep10, .collect, .update { callA with t := ⟨1001⟩, value := ⟨18⟩ } ep10]

/-- A series with a repeated label key is created and scraped once. -/
def stepsDup : List Step := [.update callDup ep10, .collect]

/-- A configuration with one transport and two applications, the second of which
fails to initialise. -/
def envLastFails : Cmd.Env :=
  { loggerFails := false, cpuprofile := none, openFails := false, parseFails := false,
    Transports := [{ Name := "socket", initFails := false, handlersFail := false }],
    Applications := [{ Name := "prometheus", init := none },
                     { Name := "print", init := some .other }] }

/-- One application, for which `InitApplication` returns `ErrAppNotReceiver`. -/
def envNotReceiver : Cmd.Env :=
  { loggerFails := false, cpuprofile := none, openFails := false, parseFails := false,
    Transports := [{ Name := "socket", initFails := false, handlersFail := false }],
    Applications := [{ Name := "prometheus", init := some .ErrAppNotReceiver }] }

/-- The same configuration with the failing application first. -/
def envFirstFails : Cmd.Env :=
  { loggerFails := false, cpuprofile := none, openFails := false, parseFails := false,
    Transports := [{ Name := "socket", initFails := false, handlersFail := false }],
    Applications := [{ Name := "print", init := some .other },
                     { Name := "prometheus", init := none }] }

/-- The configuration file cannot be opened. -/
def envOpenFails : Cmd.Env :=
  { loggerFails := false, cpuprofile := none, openFails := true, parseFails := false,
    Transports := [{ Name := "socket", initFails := false, handlersFail := false }],
    Applications := [{ Name := "prometheus", init := none }] }

/-- The configuration file opens and `ParseConfig` returns an error. -/
def envParseFails : Cmd.Env :=
  { loggerFails := false, cpuprofile := none, openFails := false, parseFails := true,
    Transports := [{ Name := "socket", initFails := false, handlersFail := false }],
    Applications := [{ Name := "prometheus", init := none }] }

/-- The namespace of the field `Port` of the struct `configT`. -/
def fieldPort : config.Bytes := config.ascii "configT.Port"

/-- The namespace of a nested field. -/
def fieldNested : config.Bytes := config.ascii "Config.Transports[0].Name"

/-- The namespace `Config.Éa`: the field name starts with the two bytes `C3 89` of
the letter `É`. -/
def fieldAccent : config.Bytes := config.ascii "Config." ++ [195, 137, 97]

end Example

/-! ## Properties -/

/-! ### sync.Map -/

namespace syncMap

variable {κ υ : Type} [DecidableEq κ]

theorem Load_Store_self (m : syncMap κ υ) (k : κ) (v : υ) :
    Load (Store m k v) k = some v := by
  induction m with
  | nil => simp [Store, Load]
  | cons kv m ih =>
    obtain ⟨k', v'⟩ := kv
    by_cases h : k' = k <;> simp [Store, Load, h, ih]

theorem Load_Store_ne (m : syncMap κ υ) (k k' : κ) (v : υ) (h : k' ≠ k) :
    Load (Store m k v) k' = Load m k' := by
  induction m with
  | nil => simp [Store, Load, Ne.symm h]
  | cons kv m ih =>
    obtain ⟨k₀, v₀⟩ := kv
    simp only [Store, Load]
    split_ifs <;> simp_all [Load]

theorem Load_Delete_self (m : syncMap κ υ) (k : κ) : Load (Delete m k) k = none := by
  induction m with
  | nil => simp [Delete, Load]
  | cons kv m ih =>
    obtain ⟨k₀, v₀⟩ := kv
    simp only [Delete, List.filter_cons] at ih ⊢
    split_ifs <;> simp_all [Load]

theorem Load_Delete_ne (m : syncMap κ υ) (k k' : κ) (h : k' ≠ k) :
    Load (Delete m k) k' = Load m k' := by
  induction m with
  | nil => simp [Delete, Load]
  | cons kv m ih =>
    obtain ⟨k₀, v₀⟩ := kv
    simp only [Delete, List.filter_cons, Load] at ih ⊢
    split_ifs <;> simp_all [Load]

theorem Load_mutate (m : syncMap κ υ) (k k' : κ) (f : υ → υ) :
    Load (mutate m k f) k' = if k' = k then (Load m k').map f else Load m k' := by
  induction m with
  | nil => simp [mutate, Load]
  | cons kv m ih =>
    obtain ⟨k₀, v₀⟩ := kv
    simp only [mutate, Load]
    split_ifs <;> simp_all [Load]

theorem keys_mutate (m : syncMap κ υ) (k : κ) (f : υ → υ) :
    keys (mutate m k f) = keys m := by
  induction m with
  | nil => rfl
  | cons kv m ih =>
    obtain ⟨k₀, v₀⟩ := kv
    simp only [keys, List.map_cons] at ih ⊢
    simp only [mutate]
    split_ifs <;> simp [ih]

theorem mem_Store (m : syncMap κ υ) (k : κ) (v : υ) (kv : κ × υ)
    (h : kv ∈ Store m k v) : kv = (k, v) ∨ kv ∈ m := by
  induction m with
  | nil => simpa [Store] using h
  | cons kv₀ m ih =>
    obtain ⟨k₀, v₀⟩ := kv₀
    simp only [Store] at h
    split_ifs at h with h₀
    · rcases List.mem_cons.mp h with h | h
      · exact Or.inl h
      · exact Or.inr (List.mem_cons_of_mem _ h)
    · rcases List.mem_cons.mp h with h | h
      · exact Or.inr (h ▸ List.mem_cons_self _ _)
      · rcases ih h with h | h
        · exact Or.inl h
        · exact Or.inr (List.mem_cons_of_mem _ h)

theorem mem_mutate (m : syncMap κ υ) (k : κ) (f : υ → υ) (kv : κ × υ)
    (h : kv ∈ mutate m k f) : kv ∈ m ∨ ∃ v, (kv.1, v) ∈ m ∧ kv.2 = f v := by
  induction m with
  | nil => simp [mutate] at h
  | cons kv₀ m ih =>
    obtain ⟨k₀, v₀⟩ := kv₀
    simp only [mutate] at h
    split_ifs at h with h₀
    · rcases List.mem_cons.mp h with h | h
      · exact Or.inr ⟨v₀, by rw [h]; exact List.mem_cons_self _ _, by rw [h]⟩
      · rcases ih h with h | ⟨v, hv, hf⟩
        · exact Or.inl (List.mem_cons_of_mem _ h)
        · exact Or.inr ⟨v, List.mem_cons_of_mem _ hv, hf⟩
    · rcases List.mem_cons.mp h with h | h
      · exact Or.inl (h ▸ List.mem_cons_self _ _)
      · rcases ih h with h | ⟨v, hv, hf⟩
        · exact Or.inl (List.mem_cons_of_mem _ h)
        · exact Or.inr ⟨v, List.mem_cons_of_mem _ hv, hf⟩

theorem mem_of_Load (m : syncMap κ υ) (k : κ) (v : υ) (h : Load m k = some v) :
    (k, v) ∈ m := by
  induction m with
  | nil => simp [Load] at h
  | cons kv₀ m ih =>
    obtain ⟨k₀, v₀⟩ := kv₀
    simp only [Load] at h
    split_ifs at h with h₀
    · cases h
      subst h₀
      exact List.mem_cons_self _ _
    · exact List.mem_cons_of_mem _ (ih h)

theorem Store_of_Load_none (m : syncMap κ υ) (k : κ) (v : υ) (h : Load m k = none) :
    Store m k v = m ++ [(k, v)] := by
  induction m with
  | nil => rfl
  | cons kv₀ m ih =>
    obtain ⟨k₀, v₀⟩ := kv₀
    simp only [Load] at h
    split_ifs at h with h₀
    simp [Store, h₀, ih h]

theorem Store_append_self (m : syncMap κ υ) (k : κ) (v v' : υ) (h : Load m k = none) :
    Store (m ++ [(k, v)]) k v' = m ++ [(k, v')] := by
  induction m with
  | nil => simp [Store]
  | cons kv₀ m ih =>
    obtain ⟨k₀, v₀⟩ := kv₀
    simp only [Load] at h
    split_ifs at h with h₀
    simp [Store, h₀, ih h]

theorem Load_mapVal {υ' : Type} (m : syncMap κ υ) (g : υ → υ') (k : κ) :
    Load (m.map (fun kv => (kv.1, g kv.2))) k = (Load m k).map g := by
  induction m with
  | nil => simp [Load]
  | cons kv m ih =>
    obtain ⟨k₀, v₀⟩ := kv
    by_cases h₀ : k₀ = k <;> simp [Load, h₀, ih]
end syncMap

/-! ### The cache key -/

theorem foldl_append_init (vals : List String) (init : String) :
    vals.foldl (fun b v => b ++ v) init = init ++ String.join vals := by
  induction vals generalizing init with
  | nil => simp [String.join]
  | cons v vs ih =>
    have h := ih ("" ++ v)
    simp only [String.join, List.foldl_cons] at h ⊢
    rw [ih (init ++ v), h, String.empty_append, String.append_assoc]
    rfl

theorem writeKey_eq (builder name : String) (labelVals : List String) :
    PromCollector.writeKey builder name labelVals
      = builder ++ (name ++ String.join labelVals) := by
  unfold PromCollector.writeKey
  rw [foldl_append_init, String.append_assoc]

theorem UpdateMetrics_builder (pc : PromCollector) (c : MetricCall) (ep : expiryProc) :
    (pc.UpdateMetrics c.name c.t c.typ c.interval c.value c.labelKeys c.labelVals ep
      c.now).1.cacheindexbuilder = "" := by
  unfold PromCollector.UpdateMetrics
  simp only
  split <;> rfl

theorem step_builder (err : prometheus.ConstMetricErr) (pc : PromCollector) (st : Step)
    (h : pc.cacheindexbuilder = "") : (pc.step err st).cacheindexbuilder = "" := by
  cases st with
  | update c ep => exact UpdateMetrics_builder pc c ep
  | collect => exact h
  | delete k =>
    simp only [PromCollector.step, PromCollector.delete]
    split
    · exact h
    · split
      · exact h
      · exact h

theorem exec_builder (err : prometheus.ConstMetricErr) (steps : List Step)
    (pc : PromCollector) (h : pc.cacheindexbuilder = "") :
    (pc.exec err steps).cacheindexbuilder = "" := by
  induction steps generalizing pc with
  | nil => exact h
  | cons st steps ih => exact ih _ (step_builder err pc st h)

theorem cacheKey_of_empty (pc : PromCollector) (h : pc.cacheindexbuilder = "")
    (name : String) (labelVals : List String) :
    pc.cacheKey name labelVals = name ++ String.join labelVals := by
  unfold PromCollector.cacheKey
  rw [writeKey_eq, h, String.empty_append]

/-- What `UpdateMetrics` leaves under the cache key of the call. -/
theorem UpdateMetrics_Load_key (pc : PromCollector) (c : MetricCall) (ep : expiryProc) :
    ∃ e, (pc.UpdateMetrics c.name c.t c.typ c.interval c.value c.labelKeys c.labelVals ep
        c.now).1.mProc.Load (pc.cacheKey c.name c.labelVals) = some e ∧
      e.metric.Name = c.name ∧ e.metric.LabelKeys = c.labelKeys ∧
      e.metric.LabelVals = c.labelVals ∧ e.metric.Time = c.t ∧ e.metric.Typ = c.typ ∧
      e.metric.Value = c.value ∧ e.expiry.lastArrival = c.now := by
  unfold PromCollector.UpdateMetrics
  simp only
  split
  · rename_i hload
    simp [syncMap.LoadOrStore, hload, syncMap.Load_mutate, syncMap.Load_Store_self,
      metricExpiry.keepAlive]
  · rename_i old hload
    simp [syncMap.Load_mutate, hload, metricExpiry.keepAlive]

/-! ### The delete gate, the update of an entry, the scrape -/

/-- C5: the per-metric delete returns true exactly when the cache key is present
with its scrapped flag set; then the entry under that key, and no other, is removed;
otherwise it returns false and leaves the collector as it was. -/
theorem delete_refuses_unless_scrapped (pc : PromCollector) (cacheKey : String) :
    ((pc.delete cacheKey).2 = true ↔
        ∃ mp, pc.mProc.Load cacheKey = some mp ∧ mp.scrapped = true) ∧
    (if (pc.delete cacheKey).2 = true then
        (pc.delete cacheKey).1 = { pc with mProc := pc.mProc.Delete cacheKey } ∧
        (pc.delete cacheKey).1.mProc.Load cacheKey = none ∧
        (∀ k, k ≠ cacheKey → (pc.delete cacheKey).1.mProc.Load k = pc.mProc.Load k)
      else (pc.delete cacheKey).1 = pc) ∧
    (∀ lastArrival : Nat,
      metricExpiry.Delete { lastArrival := lastArrival, cacheKey := cacheKey } pc
        = pc.delete cacheKey) := by
  refine ⟨?_, ?_, fun _ => rfl⟩
  · unfold PromCollector.delete
    cases hl : pc.mProc.Load cacheKey with
    | none => simp
    | some mp => cases hs : mp.scrapped <;> simp [hs]
  · unfold PromCollector.delete
    cases hl : pc.mProc.Load cacheKey with
    | none => simp
    | some mp =>
      cases hs : mp.scrapped
      · simp [hs]
      · simp only [hs, if_true, true_and]
        exact ⟨syncMap.Load_Delete_self _ _, fun k hk => syncMap.Load_Delete_ne _ _ _ hk⟩

/-- C6 (as stated) fails: a call that hits the entry under `"m1"` with another label
key list leaves that entry with the label keys of the call, not with the stored ones. -/
theorem update_existing_changes_labelKeys :
    Example.pcA.mProc.Load (Example.pcA.cacheKey "m" ["1"]) ≠ none ∧
    ((Example.pcA.UpdateMetrics "m" ⟨1001⟩ .GAUGE 10000000000 ⟨18⟩ ["b"] ["1"]
        Example.ep10 6).1.mProc.Load "m1").map (fun e => e.metric.LabelKeys)
      ≠ (Example.pcA.mProc.Load "m1").map (fun e => e.metric.LabelKeys) := by
  decide

/-- C6 (amended): when `UpdateMetrics` hits an existing entry, the entry keeps its
interval, descriptor and scrapped flag; its name, label keys, label values, time, type
and value become those of the call and its last arrival becomes `now`; every other
entry, the key order, the collector fields and the expiry engine are unchanged. When
the call carries the stored name, label keys and label values, only time, type and
value of the metric record change. -/
theorem update_existing_entry (pc : PromCollector) (name : String) (time : Float64)
    (typ : data.MetricType) (interval : Duration) (value : Float64)
    (labelKeys labelVals : List String) (ep : expiryProc) (now : Nat) (old : metricProcess)
    (hit : pc.mProc.Load (pc.cacheKey name labelVals) = some old) :
    let r := pc.UpdateMetrics name time typ interval value labelKeys labelVals ep now
    r.1.mProc.Load (pc.cacheKey name labelVals) = some
      { description := old.description,
        metric := { Name := name, LabelKeys := labelKeys, LabelVals := labelVals,
                    Time := time, Typ := typ, Interval := old.metric.Interval,
                    Value := value },
        expiry := { lastArrival := now, cacheKey := old.expiry.cacheKey },
        scrapped := old.scrapped } ∧
    (∀ k, k ≠ pc.cacheKey name labelVals → r.1.mProc.Load k = pc.mProc.Load k) ∧
    r.1.mProc.keys = pc.mProc.keys ∧
    r.1.dimensions = pc.dimensions ∧ r.1.withtimestamp = pc.withtimestamp ∧ r.2 = ep ∧
    (name = old.metric.Name → labelKeys = old.metric.LabelKeys →
      labelVals = old.metric.LabelVals →
      ∃ e, r.1.mProc.Load (pc.cacheKey name labelVals) = some e ∧
        e.metric = { old.metric with Time := time, Typ := typ, Value := value }) := by
  intro r
  have hr : r = ({ pc with
      mProc := syncMap.mutate pc.mProc (pc.cacheKey name labelVals) (fun mProc =>
        { description := mProc.description,
          metric := { Name := name, LabelKeys := labelKeys, LabelVals := labelVals,
                      Time := time, Typ := typ, Interval := mProc.metric.Interval,
                      Value := value },
          expiry := mProc.expiry.keepAlive now,
          scrapped := mProc.scrapped }),
      cacheindexbuilder := "" }, ep) := by
    show pc.UpdateMetrics name time typ interval value labelKeys labelVals ep now = _
    unfold PromCollector.UpdateMetrics
    simp only [hit]
  have hload : r.1.mProc.Load (pc.cacheKey name labelVals) = some
      { description := old.description,
        metric := { Name := name, LabelKeys := labelKeys, LabelVals := labelVals,
                    Time := time, Typ := typ, Interval := old.metric.Interval,
                    Value := value },
        expiry := { lastArrival := now, cacheKey := old.expiry.cacheKey },
        scrapped := old.scrapped } := by
    rw [hr]
    simp [syncMap.Load_mutate, hit, metricExpiry.keepAlive]
  refine ⟨hload, ?_, ?_, ?_, ?_, ?_, ?_⟩
  · intro k hk
    rw [hr]
    simp [syncMap.Load_mutate, hk]
  · rw [hr]
    exact syncMap.keys_mutate _ _ _
  · rw [hr]
  · rw [hr]
  · rw [hr]
  · intro h1 h2 h3
    refine ⟨_, hload, ?_⟩
    subst h1 h2 h3
    rfl

/-- A witness for `update_existing_entry`: the second sample of a series hits the
entry the first one created. -/
theorem update_existing_entry_witness :
    Example.pcA.mProc.Load (Example.pcA.cacheKey "m" ["1"]) = some
      { description := prometheus.NewDesc "m" "" ["a"],
        metric := { Name := "m", LabelKeys := ["a"], LabelVals := ["1"], Time := ⟨1000⟩,
                    Typ := .GAUGE, Interval := 10000000000, Value := ⟨17⟩ },
        expiry := { lastArrival := 5, cacheKey := "m1" },
        scrapped := false } ∧
    ((Example.pcA.UpdateMetrics "m" ⟨1001⟩ .GAUGE 10000000000 ⟨18⟩ ["a"] ["1"]
        Example.ep10 6).1.mProc.Load (Example.pcA.cacheKey "m" ["1"])).map
      (fun e => (e.metric.Time, e.metric.Value, e.scrapped))
      = some (⟨1001⟩, ⟨18⟩, false) := by
  have hit : Example.pcA.mProc.Load (Example.pcA.cacheKey "m" ["1"]) = some
      { description := prometheus.NewDesc "m" "" ["a"],
        metric := { Name := "m", LabelKeys := ["a"], LabelVals := ["1"], Time := ⟨1000⟩,
                    Typ := .GAUGE, Interval := 10000000000, Value := ⟨17⟩ },
        expiry := { lastArrival := 5, cacheKey := "m1" },
        scrapped := false } := by decide
  refine ⟨hit, ?_⟩
  rw [(update_existing_entry Example.pcA "m" ⟨1001⟩ .GAUGE 10000000000 ⟨18⟩ ["a"] ["1"]
    Example.ep10 6 _ hit).1]
  rfl

/-- What one visit of `Collect` sends: nothing when the constructor fails, else one
metric for the entry, stamped exactly when the collector stamps and the time is not 0. -/
theorem collectVisit_emitted (err : prometheus.ConstMetricErr) (withtimestamp : Bool)
    (mp : metricProcess) (m : prometheus.Metric)
    (hm : m ∈ (PromCollector.collectVisit err withtimestamp mp).2) :
    err mp.description (typeToPromType mp.metric.Typ) mp.metric.Value mp.metric.LabelVals
      = false ∧
    m = { desc := mp.description, valueType := typeToPromType mp.metric.Typ,
          value := mp.metric.Value, labelValues := mp.metric.LabelVals,
          timestamp := if withtimestamp && !mp.metric.Time.isZero then some mp.metric.Time
                       else none } := by
  unfold PromCollector.collectVisit prometheus.NewConstMetric at hm
  simp only at hm
  cases he : err mp.description (typeToPromType mp.metric.Typ) mp.metric.Value
      mp.metric.LabelVals
  · rw [he] at hm
    refine ⟨rfl, ?_⟩
    cases hw : withtimestamp <;> cases hz : mp.metric.Time.isZero <;>
      simp [hw, hz, prometheus.NewMetricWithTimestamp] at hm ⊢ <;> exact hm
  · rw [he] at hm
    simp at hm

/-- C8: a metric emitted by `Collect` carries a timestamp if and only if the
collector's withtimestamp flag is set and the time of its series is not 0; the
timestamp is then the series time, and otherwise the metric is emitted bare. -/
theorem Collect_timestamp_iff (err : prometheus.ConstMetricErr) (pc : PromCollector)
    (m : prometheus.Metric) (hm : m ∈ (pc.Collect err).2) :
    ∃ kv, kv ∈ pc.mProc ∧
      m.desc = kv.2.description ∧ m.value = kv.2.metric.Value ∧
      m.labelValues = kv.2.metric.LabelVals ∧
      (m.timestamp.isSome = true ↔
        (pc.withtimestamp = true ∧ kv.2.metric.Time.isZero = false)) ∧
      m.timestamp = (if pc.withtimestamp = true ∧ kv.2.metric.Time.isZero = false
                     then some kv.2.metric.Time else none) := by
  simp only [PromCollector.Collect, List.mem_flatMap] at hm
  obtain ⟨kv, hkv, hmem⟩ := hm
  obtain ⟨-, hm⟩ := collectVisit_emitted err pc.withtimestamp kv.2 m hmem
  refine ⟨kv, hkv, ?_, ?_, ?_, ?_, ?_⟩
  · rw [hm]
  · rw [hm]
  · rw [hm]
  · rw [hm]
    cases pc.withtimestamp <;> cases kv.2.metric.Time.isZero <;> simp
  · rw [hm]
    cases pc.withtimestamp <;> cases kv.2.metric.Time.isZero <;> simp

/-- A witness for `Collect_timestamp_iff`: the scrape of a stamping collector that
holds one series with time 1000. -/
theorem Collect_timestamp_iff_witness :
    Example.metricA ∈ (Example.pcA.Collect prometheus.cardinalityErr).2 ∧
    ∃ kv, kv ∈ Example.pcA.mProc ∧
      Example.metricA.desc = kv.2.description ∧
      Example.metricA.value = kv.2.metric.Value ∧
      Example.metricA.labelValues = kv.2.metric.LabelVals ∧
      (Example.metricA.timestamp.isSome = true ↔
        (Example.pcA.withtimestamp = true ∧ kv.2.metric.Time.isZero = false)) ∧
      Example.metricA.timestamp =
        (if Example.pcA.withtimestamp = true ∧ kv.2.metric.Time.isZero = false
         then some kv.2.metric.Time else none) :=
  ⟨by decide, Collect_timestamp_iff prometheus.cardinalityErr Example.pcA Example.metricA
    (by decide)⟩

/-- C9: in a sequence of operations on a collector the shared key builder is empty
whenever an operation has returned, so the cache key of every `UpdateMetrics` call is
the name followed by the label values in order, whatever the earlier calls were; the
call files its series under that key and leaves the builder empty. -/
theorem cacheKey_is_concatenation (err : prometheus.ConstMetricErr) (dimensions : Nat)
    (withtimestamp : Bool) (steps : List Step) (c : MetricCall) (ep : expiryProc) :
    let pc := (NewPromCollector dimensions withtimestamp).exec err steps
    let pc' := (pc.UpdateMetrics c.name c.t c.typ c.interval c.value c.labelKeys
      c.labelVals ep c.now).1
    pc.cacheindexbuilder = "" ∧
    pc.cacheKey c.name c.labelVals = c.name ++ String.join c.labelVals ∧
    pc'.cacheindexbuilder = "" ∧
    ∃ e, pc'.mProc.Load (c.name ++ String.join c.labelVals) = some e ∧
      e.metric.Name = c.name ∧ e.metric.LabelVals = c.labelVals ∧
      e.metric.Value = c.value := by
  intro pc pc'
  have hb : pc.cacheindexbuilder = "" := exec_builder err steps _ rfl
  have hk := cacheKey_of_empty pc hb c.name c.labelVals
  refine ⟨hb, hk, UpdateMetrics_builder pc c ep, ?_⟩
  obtain ⟨e, he, h1, -, h3, -, -, h6, -⟩ := UpdateMetrics_Load_key pc c ep
  rw [hk] at he
  exact ⟨e, he, h1, h3, h6⟩

/-! ### The ingest path -/

theorem UpdateMetrics_fst_indep (pc : PromCollector) (c : MetricCall) (ep ep' : expiryProc) :
    (pc.UpdateMetrics c.name c.t c.typ c.interval c.value c.labelKeys c.labelVals ep
      c.now).1 =
    (pc.UpdateMetrics c.name c.t c.typ c.interval c.value c.labelKeys c.labelVals ep'
      c.now).1 := by
  unfold PromCollector.UpdateMetrics
  simp only
  split <;> rfl

theorem loadExpiryProc_collectors (p : Prometheus) (interval : Duration) :
    (p.loadExpiryProc interval).1.collectors = p.collectors := by
  unfold Prometheus.loadExpiryProc
  split <;> rfl

/-- The collectors map after `ReceiveMetric`: the collector for the number of label
keys, made on the spot when there was none, is updated and written back. -/
theorem receive_collectors (p : Prometheus) (c : MetricCall) :
    ∃ ep, (p.receive c).collectors =
      match p.collectors.Load c.labelKeys.length with
      | none =>
        syncMap.Store
          (syncMap.Store p.collectors c.labelKeys.length
            (NewPromCollector c.labelKeys.length p.configuration.WithTimestamp))
          c.labelKeys.length
          ((NewPromCollector c.labelKeys.length p.configuration.WithTimestamp).UpdateMetrics
            c.name c.t c.typ c.interval c.value c.labelKeys c.labelVals ep c.now).1
      | some pc =>
        syncMap.Store p.collectors c.labelKeys.length
          (pc.UpdateMetrics c.name c.t c.typ c.interval c.value c.labelKeys c.labelVals ep
            c.now).1 := by
  unfold Prometheus.receive Prometheus.ReceiveMetric
  simp only
  cases hl : p.collectors.Load c.labelKeys.length with
  | none =>
    refine ⟨((p.loadCollector c.labelKeys.length).1.loadExpiryProc c.interval).2, ?_⟩
    simp only [Prometheus.loadCollector, hl, syncMap.LoadOrStore, loadExpiryProc_collectors]
  | some pc =>
    refine ⟨((p.loadCollector c.labelKeys.length).1.loadExpiryProc c.interval).2, ?_⟩
    simp only [Prometheus.loadCollector, hl, loadExpiryProc_collectors]

/-- A collector that holds nothing, or only the series of the call, holds exactly
that series after `UpdateMetrics`, with the time and value of the call. -/
theorem UpdateMetrics_single (pc : PromCollector) (c : MetricCall) (ep : expiryProc)
    (hb : pc.cacheindexbuilder = "")
    (hm : pc.mProc = [] ∨ ∃ e, pc.mProc = [(c.name ++ String.join c.labelVals, e)]) :
    ∃ e, (pc.UpdateMetrics c.name c.t c.typ c.interval c.value c.labelKeys c.labelVals ep
        c.now).1.mProc = [(c.name ++ String.join c.labelVals, e)] ∧
      e.metric.Value = c.value ∧ e.metric.Time = c.t := by
  have hk := cacheKey_of_empty pc hb c.name c.labelVals
  unfold PromCollector.UpdateMetrics
  simp only [hk]
  rcases hm with hm | ⟨e, hm⟩
  · simp [hm, syncMap.Load, syncMap.LoadOrStore, syncMap.Store, syncMap.mutate]
  · simp [hm, syncMap.Load, syncMap.mutate]

/-- The state of the sink while it receives one series only. -/
theorem receive_single (p : Prometheus) (c : MetricCall)
    (hp : p.collectors = [] ∨ ∃ pc e, p.collectors = [(c.labelKeys.length, pc)] ∧
      pc.cacheindexbuilder = "" ∧ pc.mProc = [(c.name ++ String.join c.labelVals, e)]) :
    ∃ pc e, (p.receive c).collectors = [(c.labelKeys.length, pc)] ∧
      pc.cacheindexbuilder = "" ∧ pc.mProc = [(c.name ++ String.join c.labelVals, e)] ∧
      e.metric.Value = c.value ∧ e.metric.Time = c.t := by
  obtain ⟨ep, hrec⟩ := receive_collectors p c
  rcases hp with hp | ⟨pc, e, hp, hb, hm⟩
  · rw [hp] at hrec
    simp only [syncMap.Load, syncMap.Store, if_true] at hrec
    obtain ⟨e, he, hv, ht⟩ := UpdateMetrics_single
      (NewPromCollector c.labelKeys.length p.configuration.WithTimestamp) c ep rfl (Or.inl rfl)
    exact ⟨_, e, hrec, UpdateMetrics_builder _ c ep, he, hv, ht⟩
  · rw [hp] at hrec
    simp only [syncMap.Load, syncMap.Store, if_true] at hrec
    obtain ⟨e', he, hv, ht⟩ := UpdateMetrics_single pc c ep hb (Or.inr ⟨e, hm⟩)
    exact ⟨_, e', hrec, UpdateMetrics_builder _ c ep, he, hv, ht⟩

theorem receiveAll_single (cs : List MetricCall) (p : Prometheus) (c : MetricCall)
    (hcs : ∀ c' ∈ cs, c'.name = c.name ∧ c'.labelKeys = c.labelKeys ∧
      c'.labelVals = c.labelVals)
    (hp : ∃ pc e, p.collectors = [(c.labelKeys.length, pc)] ∧
      pc.cacheindexbuilder = "" ∧ pc.mProc = [(c.name ++ String.join c.labelVals, e)] ∧
      e.metric.Value = c.value ∧ e.metric.Time = c.t) :
    ∃ pc e, (p.receiveAll cs).collectors = [(c.labelKeys.length, pc)] ∧
      pc.cacheindexbuilder = "" ∧ pc.mProc = [(c.name ++ String.join c.labelVals, e)] ∧
      e.metric.Value = ((c :: cs).getLast (List.cons_ne_nil c cs)).value ∧
      e.metric.Time = ((c :: cs).getLast (List.cons_ne_nil c cs)).t := by
  induction cs generalizing p c with
  | nil => simpa [Prometheus.receiveAll] using hp
  | cons c' cs ih =>
    obtain ⟨hn, hk, hv⟩ := hcs c' (List.mem_cons_self _ _)
    obtain ⟨pc, e, hcol, hb, hm, -, -⟩ := hp
    have hstep := receive_single p c' (Or.inr ⟨pc, e, by rw [hk]; exact hcol, hb,
      by rw [hn, hv]; exact hm⟩)
    have hcs' : ∀ c₂ ∈ cs, c₂.name = c'.name ∧ c₂.labelKeys = c'.labelKeys ∧
        c₂.labelVals = c'.labelVals := by
      intro c₂ hc₂
      obtain ⟨h1, h2, h3⟩ := hcs c₂ (List.mem_cons_of_mem _ hc₂)
      exact ⟨h1.trans hn.symm, h2.trans hk.symm, h3.trans hv.symm⟩
    have := ih (p.receive c') c' hcs' hstep
    rw [hn, hk, hv] at this
    simpa [Prometheus.receiveAll, List.getLast_cons (List.cons_ne_nil c' cs)] using this

/-- C1: after a non-empty sequence of `ReceiveMetric` calls that all carry the same
name, label keys and label values, a sink that held no collector holds exactly one
series, filed under the one collector of that dimension, and the value and time of the
series are those of the last call. -/
theorem same_series_single_entry (p : Prometheus) (cs : List MetricCall)
    (name : String) (labelKeys labelVals : List String)
    (hp : p.collectors = []) (hne : cs ≠ [])
    (hcs : ∀ c ∈ cs, c.name = name ∧ c.labelKeys = labelKeys ∧ c.labelVals = labelVals) :
    ∃ e, (p.receiveAll cs).series = [(name ++ String.join labelVals, e)] ∧
      (p.receiveAll cs).collectors.keys = [labelKeys.length] ∧
      e.metric.Value = (cs.getLast hne).value ∧ e.metric.Time = (cs.getLast hne).t := by
  cases cs with
  | nil => exact absurd rfl hne
  | cons c cs =>
    obtain ⟨hn, hk, hv⟩ := hcs c (List.mem_cons_self _ _)
    have hcs' : ∀ c' ∈ cs, c'.name = c.name ∧ c'.labelKeys = c.labelKeys ∧
        c'.labelVals = c.labelVals := by
      intro c' hc'
      obtain ⟨h1, h2, h3⟩ := hcs c' (List.mem_cons_of_mem _ hc')
      exact ⟨h1.trans hn.symm, h2.trans hk.symm, h3.trans hv.symm⟩
    obtain ⟨pc, e, hcol, -, hm, hval, ht⟩ :=
      receiveAll_single cs (p.receive c) c hcs' (receive_single p c (Or.inl hp))
    have hall : p.receiveAll (c :: cs) = (p.receive c).receiveAll cs := rfl
    refine ⟨e, ?_, ?_, hval, ht⟩
    · rw [hall]
      simp [Prometheus.series, hcol, hm, hn, hv]
    · rw [hall, hcol, hk]
      rfl

/-- A witness for `same_series_single_entry`: two samples of `m{a="1"}`. -/
theorem same_series_single_entry_witness :
    ∃ e, (New.receiveAll [Example.callA, { Example.callA with t := ⟨1001⟩, value := ⟨18⟩ }]).series
        = [("m" ++ String.join ["1"], e)] ∧
      (New.receiveAll [Example.callA,
        { Example.callA with t := ⟨1001⟩, value := ⟨18⟩ }]).collectors.keys = [["a"].length] ∧
      e.metric.Value = ⟨18⟩ ∧ e.metric.Time = ⟨1001⟩ :=
  same_series_single_entry New
    [Example.callA, { Example.callA with t := ⟨1001⟩, value := ⟨18⟩ }] "m" ["a"] ["1"] rfl
    (by decide) (by decide)

/-- The method `UpdateMetrics` with `d` label keys keeps a collector of dimension `d` whose
series all have `d` label keys, in the metric record and in the descriptor, such. -/
theorem UpdateMetrics_dimensions (pc : PromCollector) (c : MetricCall) (ep : expiryProc)
    (d : Nat) (hd : c.labelKeys.length = d) (hdim : pc.dimensions = d)
    (hs : ∀ s ∈ pc.mProc, s.2.metric.LabelKeys.length = d ∧
      s.2.description.variableLabels.length = d) :
    (pc.UpdateMetrics c.name c.t c.typ c.interval c.value c.labelKeys c.labelVals ep
      c.now).1.dimensions = d ∧
    ∀ s ∈ (pc.UpdateMetrics c.name c.t c.typ c.interval c.value c.labelKeys c.labelVals ep
      c.now).1.mProc,
      s.2.metric.LabelKeys.length = d ∧ s.2.description.variableLabels.length = d := by
  unfold PromCollector.UpdateMetrics
  simp only
  split
  · rename_i hload
    refine ⟨hdim, ?_⟩
    intro s hsm
    simp only [syncMap.LoadOrStore, hload] at hsm
    have hstore : ∀ s' ∈ syncMap.Store pc.mProc (pc.cacheKey c.name c.labelVals)
        ({ description := prometheus.NewDesc c.name "" c.labelKeys,
           expiry := { lastArrival := 0, cacheKey := pc.cacheKey c.name c.labelVals },
           metric := { Name := c.name, LabelKeys := c.labelKeys, LabelVals := c.labelVals,
                       Time := c.t, Typ := c.typ, Interval := c.interval,
                       Value := c.value },
           scrapped := false } : metricProcess),
        s'.2.metric.LabelKeys.length = d ∧ s'.2.description.variableLabels.length = d := by
      intro s' hs'
      rcases syncMap.mem_Store _ _ _ _ hs' with h | h
      · rw [h]
        exact ⟨hd, hd⟩
      · exact hs s' h
    rcases syncMap.mem_mutate _ _ _ _ hsm with h | ⟨v, hv, hf⟩
    · exact hstore s h
    · rw [hf]
      exact hstore (s.1, v) hv
  · refine ⟨hdim, ?_⟩
    intro s hsm
    rcases syncMap.mem_mutate _ _ _ _ hsm with h | ⟨v, hv, hf⟩
    · exact hs s h
    · rw [hf]
      exact ⟨hd, (hs (s.1, v) hv).2⟩

/-- One `ReceiveMetric` keeps every collector at the dimension it is stored under. -/
theorem receive_dimensions (p : Prometheus) (c : MetricCall)
    (hinv : ∀ kv ∈ p.collectors, kv.2.dimensions = kv.1 ∧
      ∀ s ∈ kv.2.mProc, s.2.metric.LabelKeys.length = kv.1 ∧
        s.2.description.variableLabels.length = kv.1) :
    ∀ kv ∈ (p.receive c).collectors, kv.2.dimensions = kv.1 ∧
      ∀ s ∈ kv.2.mProc, s.2.metric.LabelKeys.length = kv.1 ∧
        s.2.description.variableLabels.length = kv.1 := by
  obtain ⟨ep, hrec⟩ := receive_collectors p c
  intro kv hkv
  rw [hrec] at hkv
  cases hl : p.collectors.Load c.labelKeys.length with
  | none =>
    simp only [hl] at hkv
    rcases syncMap.mem_Store _ _ _ _ hkv with h | h
    · rw [h]
      exact UpdateMetrics_dimensions _ c ep _ rfl rfl (by simp [NewPromCollector])
    · rcases syncMap.mem_Store _ _ _ _ h with h | h
      · rw [h]
        exact ⟨rfl, by simp [NewPromCollector]⟩
      · exact hinv kv h
  | some pc =>
    simp only [hl] at hkv
    rcases syncMap.mem_Store _ _ _ _ hkv with h | h
    · rw [h]
      have hpc := hinv _ (syncMap.mem_of_Load _ _ _ hl)
      exact UpdateMetrics_dimensions pc c ep _ rfl hpc.1 hpc.2
    · exact hinv kv h

theorem receiveAll_dimensions (cs : List MetricCall) (p : Prometheus)
    (hinv : ∀ kv ∈ p.collectors, kv.2.dimensions = kv.1 ∧
      ∀ s ∈ kv.2.mProc, s.2.metric.LabelKeys.length = kv.1 ∧
        s.2.description.variableLabels.length = kv.1) :
    ∀ kv ∈ (p.receiveAll cs).collectors, kv.2.dimensions = kv.1 ∧
      ∀ s ∈ kv.2.mProc, s.2.metric.LabelKeys.length = kv.1 ∧
        s.2.description.variableLabels.length = kv.1 := by
  induction cs generalizing p with
  | nil => exact hinv
  | cons c cs ih => exact ih (p.receive c) (receive_dimensions p c hinv)

/-- A call whose number of label keys has no collector yet adds a collector and leaves
the existing ones as they are. -/
theorem receive_new_collector (p : Prometheus) (c : MetricCall)
    (hl : p.collectors.Load c.labelKeys.length = none) :
    ∃ pc, (p.receive c).collectors = p.collectors ++ [(c.labelKeys.length, pc)] := by
  obtain ⟨ep, hrec⟩ := receive_collectors p c
  simp only [hl] at hrec
  rw [syncMap.Store_of_Load_none _ _ _ hl, syncMap.Store_append_self _ _ _ _ hl] at hrec
  exact ⟨_, hrec⟩

/-- C7: after any sequence of `ReceiveMetric` calls on a sink that held no collector,
every collector stored under key `d` has dimensions `d` and every series in it has
exactly `d` label keys, in its metric record and in its descriptor; and a further call
whose number of label keys has no collector yet adds a new collector under that number
and leaves the stored collectors untouched. -/
theorem no_series_crosses_dimensions (p : Prometheus) (cs : List MetricCall)
    (hp : p.collectors = []) :
    (∀ kv ∈ (p.receiveAll cs).collectors, kv.2.dimensions = kv.1 ∧
      ∀ s ∈ kv.2.mProc, s.2.metric.LabelKeys.length = kv.1 ∧
        s.2.description.variableLabels.length = kv.1) ∧
    (∀ c : MetricCall, (p.receiveAll cs).collectors.Load c.labelKeys.length = none →
      ∃ pc, ((p.receiveAll cs).receive c).collectors
          = (p.receiveAll cs).collectors ++ [(c.labelKeys.length, pc)] ∧
        pc.dimensions = c.labelKeys.length ∧
        ∀ s ∈ pc.mProc, s.2.metric.LabelKeys.length = c.labelKeys.length) := by
  have hinv := receiveAll_dimensions cs p (by simp [hp])
  refine ⟨hinv, ?_⟩
  intro c hl
  obtain ⟨pc, hpc⟩ := receive_new_collector _ c hl
  have hgood := receive_dimensions _ c hinv (c.labelKeys.length, pc) (by rw [hpc]; simp)
  exact ⟨pc, hpc, hgood.1, fun s hs => (hgood.2 s hs).1⟩

/-- A witness for `no_series_crosses_dimensions`: the sink `New`, which holds no
collector, after one sample with one label and one with two. -/
theorem no_series_crosses_dimensions_witness :
    New.collectors = [] ∧
    (∀ kv ∈ (New.receiveAll [Example.callA, Example.callTwo]).collectors,
      kv.2.dimensions = kv.1 ∧
      ∀ s ∈ kv.2.mProc, s.2.metric.LabelKeys.length = kv.1 ∧
        s.2.description.variableLabels.length = kv.1) ∧
    (New.receiveAll [Example.callA, Example.callTwo]).collectors.keys = [1, 2] :=
  ⟨rfl, (no_series_crosses_dimensions New [Example.callA, Example.callTwo] rfl).1,
    by decide⟩

/-- C2 at a failing input: the series `ab{k="c"}` and `a{k="bc"}` have the same
number of label keys and differ in name and label values, yet both are filed under the
cache key `"abc"`; after the two calls the sink holds one entry, with the descriptor of
the first series and the name, label values and value of the second. -/
theorem colliding_cache_keys_share_entry :
    Example.callAbC.labelKeys.length = Example.callABc.labelKeys.length ∧
    (Example.callAbC.name, Example.callAbC.labelVals)
      ≠ (Example.callABc.name, Example.callABc.labelVals) ∧
    (New.receiveAll [Example.callAbC, Example.callABc]).series =
      [("abc",
        { description := prometheus.NewDesc "ab" "" ["k"],
          metric := { Name := "a", LabelKeys := ["k"], LabelVals := ["bc"], Time := ⟨1001⟩,
                      Typ := .COUNTER, Interval := 10000000000, Value := ⟨2⟩ },
          expiry := { lastArrival := 6, cacheKey := "abc" },
          scrapped := false })] := by
  decide

/-! ### Startup -/

namespace Cmd

theorem transportStep_events (events : List Event) (t : Transport) :
    ∃ evs, transportStep events t = events ++ evs ∧
      ∀ e ∈ evs, e ≠ Event.RunTransports ∧ e ≠ Event.RunApplications := by
  unfold transportStep
  simp only
  split_ifs
  · exact ⟨[.InitTransport t.Name, .error "failed configuring transport"], by simp, by simp⟩
  · exact ⟨[.InitTransport t.Name, .SetTransportHandlers t.Name,
      .error "transport handlers failed to load"], by simp, by simp⟩
  · exact ⟨[.InitTransport t.Name, .SetTransportHandlers t.Name, .info "loaded transport"],
      by simp, by simp⟩

theorem transportLoop_events (ts : List Transport) (events : List Event) :
    ∃ evs, ts.foldl transportStep events = events ++ evs ∧
      ∀ e ∈ evs, e ≠ Event.RunTransports ∧ e ≠ Event.RunApplications := by
  induction ts generalizing events with
  | nil => exact ⟨[], by simp, by simp⟩
  | cons t ts ih =>
    obtain ⟨evs₁, h₁, hn₁⟩ := transportStep_events events t
    obtain ⟨evs₂, h₂, hn₂⟩ := ih (transportStep events t)
    refine ⟨evs₁ ++ evs₂, by rw [List.foldl_cons, h₂, h₁, List.append_assoc], ?_⟩
    intro e he
    rcases List.mem_append.mp he with he | he
    · exact hn₁ e he
    · exact hn₂ e he

/-- What one round of the application loop does: it sets `err` to the result of this
`InitApplication` and appends the call and its log lines. -/
theorem applicationStep_events (st : Option InitError × List Event) (a : Application) :
    (applicationStep st a).1 = a.init ∧
    ∃ evs, (applicationStep st a).2 = st.2 ++ evs ∧
      (∀ e ∈ evs, e ≠ Event.RunTransports ∧ e ≠ Event.RunApplications) ∧
      Event.InitApplication a.Name ∈ evs ∧
      (a.init = some .ErrAppNotReceiver → Event.warn "ErrAppNotReceiver" ∈ evs) ∧
      (a.init = some .other → Event.error "failed configuring application" ∈ evs) := by
  unfold applicationStep
  cases hi : a.init with
  | none =>
    exact ⟨rfl, [.InitApplication a.Name, .info "loaded application plugin"],
      by simp, by simp, by simp, by simp, by simp⟩
  | some e =>
    cases e with
    | ErrAppNotReceiver =>
      exact ⟨rfl, [.InitApplication a.Name, .warn "ErrAppNotReceiver",
        .info "loaded application plugin"], by simp, by simp, by simp, by simp, by simp⟩
    | other =>
      exact ⟨rfl, [.InitApplication a.Name, .error "failed configuring application"],
        by simp, by simp, by simp, by simp, by simp⟩

theorem applicationLoop_events (apps : List Application)
    (st : Option InitError × List Event) :
    (∀ a, apps.getLast? = some a → (apps.foldl applicationStep st).1 = a.init) ∧
    (apps = [] → (apps.foldl applicationStep st).1 = st.1) ∧
    ∃ evs, (apps.foldl applicationStep st).2 = st.2 ++ evs ∧
      (∀ e ∈ evs, e ≠ Event.RunTransports ∧ e ≠ Event.RunApplications) ∧
      ∀ a ∈ apps, Event.InitApplication a.Name ∈ evs ∧
        (a.init = some .ErrAppNotReceiver → Event.warn "ErrAppNotReceiver" ∈ evs) ∧
        (a.init = some .other → Event.error "failed configuring application" ∈ evs) := by
  induction apps generalizing st with
  | nil => exact ⟨by simp, by simp, [], by simp, by simp, by simp⟩
  | cons a apps ih =>
    obtain ⟨herr, evs₁, h₁, hn₁, hc₁, hw₁, he₁⟩ := applicationStep_events st a
    obtain ⟨hlast, hnil, evs₂, h₂, hn₂, hall₂⟩ := ih (applicationStep st a)
    refine ⟨?_, by simp, evs₁ ++ evs₂, ?_, ?_, ?_⟩
    · intro b hb
      cases apps with
      | nil =>
        simp only [List.getLast?_singleton, Option.some.injEq] at hb
        subst hb
        simpa using herr
      | cons a' apps' =>
        rw [List.getLast?_cons_cons] at hb
        exact hlast b hb
    · rw [List.foldl_cons, h₂, h₁, List.append_assoc]
    · intro e he
      rcases List.mem_append.mp he with he | he
      · exact hn₁ e he
      · exact hn₂ e he
    · intro b hb
      rcases List.mem_cons.mp hb with hb | hb
      · subst hb
        exact ⟨List.mem_append_left _ hc₁, fun h => List.mem_append_left _ (hw₁ h),
          fun h => List.mem_append_left _ (he₁ h)⟩
      · obtain ⟨h1, h2, h3⟩ := hall₂ b hb
        exact ⟨List.mem_append_right _ h1, fun h => List.mem_append_right _ (h2 h),
          fun h => List.mem_append_right _ (h3 h)⟩

/-- The events of `main` once the logger exists and the configuration is read: the
events of the two loops, followed by the run of the plugins exactly when `err` is nil
after the application loop. -/
theorem main_events (env : Env) (hl : env.loggerFails = false) (ho : env.openFails = false)
    (hp : env.parseFails = false) :
    ∃ pre, (∀ e ∈ pre, e ≠ Event.RunTransports ∧ e ≠ Event.RunApplications) ∧
      (∀ a ∈ env.Applications, Event.InitApplication a.Name ∈ pre ∧
        (a.init = some .ErrAppNotReceiver → Event.warn "ErrAppNotReceiver" ∈ pre) ∧
        (a.init = some .other → Event.error "failed configuring application" ∈ pre)) ∧
      (main env).events =
        if (∀ a, env.Applications.getLast? = some a → a.init = none) then
          pre ++ [.RunTransports, .RunApplications, .SpawnSignalHandler,
                  .info "sg-core exited cleanly"]
        else pre := by
  obtain ⟨ev₀, hev₀, hn₀⟩ : ∃ ev₀ : List Event,
      (match env.cpuprofile with
        | none => []
        | some (createFails, startFails) =>
          (if createFails then [Event.error "failed to start cpu profile"] else []) ++
          (if startFails then [Event.error "failed to start cpu profile"] else [])) = ev₀ ∧
      ∀ e ∈ ev₀, e ≠ Event.RunTransports ∧ e ≠ Event.RunApplications := by
    refine ⟨_, rfl, ?_⟩
    cases env.cpuprofile with
    | none => simp
    | some cs =>
      obtain ⟨c, s⟩ := cs
      cases c <;> cases s <;> simp
  obtain ⟨ev₁, hev₁, hn₁⟩ := transportLoop_events env.Transports ev₀
  obtain ⟨hlast, hnil, ev₂, hev₂, hn₂, hall⟩ :=
    applicationLoop_events env.Applications (none, env.Transports.foldl transportStep ev₀)
  have hpre : ∀ e ∈ ev₀ ++ ev₁ ++ ev₂, e ≠ Event.RunTransports ∧ e ≠ Event.RunApplications := by
    intro e he
    rcases List.mem_append.mp he with he | he
    · rcases List.mem_append.mp he with he | he
      · exact hn₀ e he
      · exact hn₁ e he
    · exact hn₂ e he
  refine ⟨ev₀ ++ ev₁ ++ ev₂, hpre, ?_, ?_⟩
  · intro a ha
    obtain ⟨h1, h2, h3⟩ := hall a ha
    exact ⟨List.mem_append_right _ h1, fun h => List.mem_append_right _ (h2 h),
      fun h => List.mem_append_right _ (h3 h)⟩
  · have hmain : (main env).events =
        match (env.Applications.foldl applicationStep
            (none, env.Transports.foldl transportStep ev₀)).1 with
        | some _ => (env.Applications.foldl applicationStep
            (none, env.Transports.foldl transportStep ev₀)).2
        | none => (env.Applications.foldl applicationStep
            (none, env.Transports.foldl transportStep ev₀)).2 ++
              [.RunTransports, .RunApplications, .SpawnSignalHandler,
               .info "sg-core exited cleanly"] := by
      unfold main
      simp only [hl, ho, hp, hev₀, Bool.false_eq_true, if_false]
      generalize env.Applications.foldl applicationStep
        (none, env.Transports.foldl transportStep ev₀) = r
      obtain ⟨err, evs⟩ := r
      cases err <;> rfl
    rw [hmain]
    cases happs : env.Applications.getLast? with
    | none =>
      have hnil' := hnil (List.getLast?_eq_none_iff.mp happs)
      simp only at hnil'
      rw [hnil', hev₂, hev₁]
      simp
    | some a =>
      have := hlast a happs
      rw [this, hev₂, hev₁]
      cases hi : a.init <;> simp [hi]

/-- C10 at its failing inputs: with two applications of which the last one fails to
initialise, `main` returns after the application loop and runs neither the transports
nor the applications; so it does with one application for which `InitApplication`
returns `ErrAppNotReceiver`, right after logging the warning and the line `loaded
application plugin`. The same failure in an earlier position is not fatal: with the
failing application first and a sound one last the transports and the applications
are run. -/
theorem last_application_failure_ends_startup :
    Event.RunTransports ∉ (main Example.envLastFails).events ∧
    Event.RunApplications ∉ (main Example.envLastFails).events ∧
    (main Example.envLastFails).events =
      [.InitTransport "socket", .SetTransportHandlers "socket", .info "loaded transport",
       .InitApplication "prometheus", .info "loaded application plugin",
       .InitApplication "print", .error "failed configuring application"] ∧
    Event.RunTransports ∉ (main Example.envNotReceiver).events ∧
    Event.RunApplications ∉ (main Example.envNotReceiver).events ∧
    (main Example.envNotReceiver).events =
      [.InitTransport "socket", .SetTransportHandlers "socket", .info "loaded transport",
       .InitApplication "prometheus", .warn "ErrAppNotReceiver",
       .info "loaded application plugin"] ∧
    (main Example.envFirstFails).events =
      [.InitTransport "socket", .SetTransportHandlers "socket", .info "loaded transport",
       .InitApplication "print", .error "failed configuring application",
       .InitApplication "prometheus", .info "loaded application plugin",
       .RunTransports, .RunApplications, .SpawnSignalHandler,
       .info "sg-core exited cleanly"] := by
  decide

/-- The guard after the application loop, as the code has it: once the logger exists
and the configuration is read, every configured application is initialised whatever the
earlier ones returned, and a failing one leaves a warning (`ErrAppNotReceiver`) or an
error line; the variable `err` that the guard tests holds the result of the last
`InitApplication` call only, so the plugins are run exactly when that last call
returned no error or no application is configured. A failure is thus fatal or not by
its position in the list. -/
theorem application_failure_and_startup (env : Env) (hl : env.loggerFails = false)
    (ho : env.openFails = false) (hp : env.parseFails = false) :
    (∀ a ∈ env.Applications, Event.InitApplication a.Name ∈ (main env).events ∧
      (a.init = some .ErrAppNotReceiver →
        Event.warn "ErrAppNotReceiver" ∈ (main env).events) ∧
      (a.init = some .other →
        Event.error "failed configuring application" ∈ (main env).events)) ∧
    ((Event.RunTransports ∈ (main env).events ∧ Event.RunApplications ∈ (main env).events) ↔
      ∀ a, env.Applications.getLast? = some a → a.init = none) := by
  obtain ⟨pre, hpre, hall, hev⟩ := main_events env hl ho hp
  have hsub : ∀ e ∈ pre, e ∈ (main env).events := by
    intro e he
    rw [hev]
    split_ifs
    · exact List.mem_append_left _ he
    · exact he
  refine ⟨?_, ?_⟩
  · intro a ha
    obtain ⟨h1, h2, h3⟩ := hall a ha
    exact ⟨hsub _ h1, fun h => hsub _ (h2 h), fun h => hsub _ (h3 h)⟩
  · rw [hev]
    constructor
    · intro hrun
      by_contra hcon
      rw [if_neg hcon] at hrun
      exact (hpre _ hrun.1).1 rfl
    · intro hok
      rw [if_pos hok]
      simp

/-- An instance of `application_failure_and_startup`: the failing application comes
first, the last one initialises, and the plugins are run. -/
theorem application_failure_and_startup_witness :
    Example.envFirstFails.loggerFails = false ∧
    Event.error "failed configuring application" ∈ (main Example.envFirstFails).events ∧
    Event.InitApplication "prometheus" ∈ (main Example.envFirstFails).events ∧
    Event.RunTransports ∈ (main Example.envFirstFails).events ∧
    Event.RunApplications ∈ (main Example.envFirstFails).events :=
  have h := application_failure_and_startup Example.envFirstFails rfl rfl rfl
  ⟨rfl, (h.1 { Name := "print", init := some .other } (by decide)).2.2 rfl,
    (h.1 { Name := "prometheus", init := none } (by decide)).1,
    (h.2.mpr (by decide)).1, (h.2.mpr (by decide)).2⟩

end Cmd

/-! ### Scrape before delete -/

namespace PromCollector

theorem exec_concat (err : prometheus.ConstMetricErr) (pc : PromCollector) (s : List Step)
    (st : Step) : exec err pc (s ++ [st]) = step err (exec err pc s) st := by
  simp [exec, List.foldl_append]

theorem exec_append (err : prometheus.ConstMetricErr) (pc : PromCollector)
    (a b : List Step) : exec err pc (a ++ b) = exec err (exec err pc a) b := by
  simp [exec, List.foldl_append]

/-- An `UpdateMetrics` call leaves the entries under the other keys alone. -/
theorem update_Load_ne (pc : PromCollector) (c : MetricCall) (ep : expiryProc) (k : String)
    (hk : k ≠ pc.cacheKey c.name c.labelVals) :
    (pc.UpdateMetrics c.name c.t c.typ c.interval c.value c.labelKeys c.labelVals ep
      c.now).1.mProc.Load k = pc.mProc.Load k := by
  unfold UpdateMetrics
  simp only
  split
  · rename_i hload
    simp [syncMap.LoadOrStore, hload, syncMap.Load_mutate, hk, syncMap.Load_Store_ne]
  · simp [syncMap.Load_mutate, hk]

/-- An `UpdateMetrics` call that finds no entry files one that is not scraped yet. -/
theorem update_Load_new (pc : PromCollector) (c : MetricCall) (ep : expiryProc)
    (hnone : pc.mProc.Load (pc.cacheKey c.name c.labelVals) = none) :
    ∃ e, (pc.UpdateMetrics c.name c.t c.typ c.interval c.value c.labelKeys c.labelVals ep
        c.now).1.mProc.Load (pc.cacheKey c.name c.labelVals) = some e ∧
      e.scrapped = false := by
  unfold UpdateMetrics
  simp only [hnone]
  simp [syncMap.LoadOrStore, hnone, syncMap.Load_mutate, syncMap.Load_Store_self]

/-- An `UpdateMetrics` call that finds an entry keeps its scrapped flag. -/
theorem update_Load_old (pc : PromCollector) (c : MetricCall) (ep : expiryProc)
    (old : metricProcess) (hold : pc.mProc.Load (pc.cacheKey c.name c.labelVals) = some old) :
    ∃ e, (pc.UpdateMetrics c.name c.t c.typ c.interval c.value c.labelKeys c.labelVals ep
        c.now).1.mProc.Load (pc.cacheKey c.name c.labelVals) = some e ∧
      e.scrapped = old.scrapped := by
  unfold UpdateMetrics
  simp only [hold]
  simp [syncMap.Load_mutate, hold]

/-- The method `Collect` visits every entry: the keys stay and each entry is marked. -/
theorem Collect_Load (err : prometheus.ConstMetricErr) (pc : PromCollector) (k : String) :
    (pc.Collect err).1.mProc.Load k
      = (pc.mProc.Load k).map (fun e => (collectVisit err pc.withtimestamp e).1) := by
  simp only [Collect]
  exact syncMap.Load_mapVal pc.mProc (fun e => (collectVisit err pc.withtimestamp e).1) k

theorem collectVisit_scrapped (err : prometheus.ConstMetricErr) (w : Bool)
    (e : metricProcess) : (collectVisit err w e).1.scrapped = true := by
  unfold collectVisit
  simp only
  split
  · rfl
  · split_ifs <;> rfl

/-- The per-metric delete creates no entry and changes none. -/
theorem delete_Load (pc : PromCollector) (k₀ k : String) (e : metricProcess)
    (h : (pc.delete k₀).1.mProc.Load k = some e) : pc.mProc.Load k = some e := by
  unfold delete at h
  split at h
  · exact h
  · split_ifs at h
    · by_cases hk : k = k₀
      · subst hk
        simp [syncMap.Load_Delete_self] at h
      · simpa [syncMap.Load_Delete_ne _ _ _ hk] using h
    · exact h

theorem append_singleton_split {α : Type} (b x y : List α) (st : α)
    (h : b ++ [st] = x ++ y) :
    (y = [] ∧ x = b ++ [st]) ∨ ∃ y', y = y' ++ [st] ∧ b = x ++ y' := by
  rcases List.eq_nil_or_concat y with hy | ⟨y', z, hy⟩
  · left
    subst hy
    exact ⟨rfl, by simpa using h.symm⟩
  · right
    subst hy
    rw [List.concat_eq_append] at h ⊢
    rw [← List.append_assoc] at h
    have h' := List.append_inj' h rfl
    refine ⟨y', ?_, h'.1⟩
    have hz : st = z := by simpa using h'.2
    rw [hz]

/-- A history of the entry under `k` stays one when a further step leaves an entry
under `k`. -/
theorem history_extend (err : prometheus.ConstMetricErr) (pc₀ : PromCollector)
    (s : List Step) (st : Step) (k : String) (P P' : Prop)
    (h : ∃ a cu ep b, s = a ++ Step.update cu ep :: b ∧
      (exec err pc₀ a).mProc.Load k = none ∧ cu.name ++ String.join cu.labelVals = k ∧
      (∀ x y, b = x ++ y →
        ((exec err pc₀ (a ++ Step.update cu ep :: x)).mProc.Load k).isSome = true) ∧
      (P → Step.collect ∈ b))
    (hsome : ((exec err pc₀ (s ++ [st])).mProc.Load k).isSome = true)
    (hP : P' → P ∨ st = Step.collect) :
    ∃ a cu ep b, s ++ [st] = a ++ Step.update cu ep :: b ∧
      (exec err pc₀ a).mProc.Load k = none ∧ cu.name ++ String.join cu.labelVals = k ∧
      (∀ x y, b = x ++ y →
        ((exec err pc₀ (a ++ Step.update cu ep :: x)).mProc.Load k).isSome = true) ∧
      (P' → Step.collect ∈ b) := by
  obtain ⟨a, cu, ep, b, hs, hnone, hkey, hpers, hcol⟩ := h
  refine ⟨a, cu, ep, b ++ [st], by rw [hs]; simp, hnone, hkey, ?_, ?_⟩
  · intro x y hxy
    rcases append_singleton_split b x y st hxy with ⟨-, hx⟩ | ⟨y', -, hb⟩
    · rw [hx]
      have : a ++ Step.update cu ep :: (b ++ [st]) = s ++ [st] := by rw [hs]; simp
      rw [this]
      exact hsome
    · exact hpers x y' hb
  · intro hp'
    rcases hP hp' with hp | hst
    · exact List.mem_append_left _ (hcol hp)
    · rw [hst]
      simp

/-- The history of an entry: it was filed by an `UpdateMetrics` call that found no
entry under its key, it has been in the collector ever since, and when it is marked
as scraped a `Collect` ran after that call. -/
theorem history (err : prometheus.ConstMetricErr) (pc₀ : PromCollector)
    (h₀ : pc₀.mProc = []) (hb₀ : pc₀.cacheindexbuilder = "") (s : List Step) :
    ∀ (k : String) (e : metricProcess), (exec err pc₀ s).mProc.Load k = some e →
    ∃ a cu ep b, s = a ++ Step.update cu ep :: b ∧
      (exec err pc₀ a).mProc.Load k = none ∧ cu.name ++ String.join cu.labelVals = k ∧
      (∀ x y, b = x ++ y →
        ((exec err pc₀ (a ++ Step.update cu ep :: x)).mProc.Load k).isSome = true) ∧
      (e.scrapped = true → Step.collect ∈ b) := by
  induction s using List.reverseRecOn with
  | nil =>
    intro k e he
    simp [exec, h₀, syncMap.Load] at he
  | append_singleton s st ih =>
    intro k e he
    have hsome : ((exec err pc₀ (s ++ [st])).mProc.Load k).isSome = true := by
      rw [he]
      rfl
    rw [exec_concat] at he
    have hbuilder := exec_builder err s pc₀ hb₀
    cases st with
    | update c ep₀ =>
      have hkey := cacheKey_of_empty (exec err pc₀ s) hbuilder c.name c.labelVals
      simp only [step] at he
      by_cases hk : k = (exec err pc₀ s).cacheKey c.name c.labelVals
      · subst hk
        cases hold : (exec err pc₀ s).mProc.Load
            ((exec err pc₀ s).cacheKey c.name c.labelVals) with
        | none =>
          obtain ⟨e', he', hs'⟩ := update_Load_new (exec err pc₀ s) c ep₀ hold
          rw [he'] at he
          have hee : e' = e := Option.some.inj he
          rw [← hee]
          refine ⟨s, c, ep₀, [], rfl, hold, hkey.symm, ?_, ?_⟩
          · intro x y hxy
            have hx : x = [] := by
              cases x with
              | nil => rfl
              | cons z x => simp at hxy
            rw [hx]
            exact hsome
          · intro hscr
            rw [hs'] at hscr
            exact absurd hscr (by simp)
        | some old =>
          obtain ⟨e', he', hs'⟩ := update_Load_old (exec err pc₀ s) c ep₀ old hold
          rw [he'] at he
          have hee : e' = e := Option.some.inj he
          rw [← hee]
          exact history_extend err pc₀ s _ _ (old.scrapped = true) (e'.scrapped = true)
            (ih _ old hold) hsome (fun h => Or.inl (hs' ▸ h))
      · rw [update_Load_ne _ c ep₀ k hk] at he
        exact history_extend err pc₀ s _ k (e.scrapped = true) (e.scrapped = true)
          (ih k e he) hsome Or.inl
    | collect =>
      simp only [step, Collect_Load] at he
      cases hold : (exec err pc₀ s).mProc.Load k with
      | none => simp [hold] at he
      | some old =>
        exact history_extend err pc₀ s _ k (old.scrapped = true) (e.scrapped = true)
          (ih k old hold) hsome (fun _ => Or.inr rfl)
    | delete k₀ =>
      simp only [step] at he
      exact history_extend err pc₀ s _ k (e.scrapped = true) (e.scrapped = true)
        (ih k e (delete_Load _ k₀ k e he)) hsome Or.inl

theorem delete_true_Load (pc : PromCollector) (k : String) (h : (pc.delete k).2 = true) :
    ∃ e, pc.mProc.Load k = some e ∧ e.scrapped = true := by
  unfold delete at h
  cases hl : pc.mProc.Load k with
  | none => simp [hl] at h
  | some e =>
    refine ⟨e, rfl, ?_⟩
    cases hs : e.scrapped
    · simp [hl, hs] at h
    · rfl

/-- What the visit of an entry sends is part of what `Collect` sends. -/
theorem Collect_contains_visit (err : prometheus.ConstMetricErr) (pc : PromCollector)
    (k : String) (e : metricProcess) (h : pc.mProc.Load k = some e) :
    ∀ m ∈ (collectVisit err pc.withtimestamp e).2, m ∈ (pc.Collect err).2 := by
  intro m hm
  simp only [Collect, List.mem_flatMap]
  exact ⟨(k, e), syncMap.mem_of_Load _ _ _ h, hm⟩

/-- A visit sends nothing exactly when the library constructor fails. -/
theorem collectVisit_nil_iff (err : prometheus.ConstMetricErr) (w : Bool)
    (e : metricProcess) :
    (collectVisit err w e).2 = [] ↔
      err e.description (typeToPromType e.metric.Typ) e.metric.Value e.metric.LabelVals
        = true := by
  unfold collectVisit prometheus.NewConstMetric
  simp only
  cases he : err e.description (typeToPromType e.metric.Typ) e.metric.Value
      e.metric.LabelVals
  · cases w <;> cases e.metric.Time.isZero <;> simp
  · simp

end PromCollector

/-- C3 (as stated) fails: a series whose descriptor the library rejects is created
and scraped; the only `Collect` of the sequence marks it as scraped but pushes no
metric onto the channel, and the per-metric delete then removes it. -/
theorem removed_without_being_pushed :
    (((NewPromCollector 2 true).exec prometheus.cardinalityErr Example.stepsDup).delete
      "m12").2 = true ∧
    (((NewPromCollector 2 true).exec prometheus.cardinalityErr Example.stepsDup).delete
      "m12").1.mProc = [] ∧
    ∀ a b, Example.stepsDup = a ++ Step.collect :: b →
      (((NewPromCollector 2 true).exec prometheus.cardinalityErr a).Collect
        prometheus.cardinalityErr).2 = [] := by
  refine ⟨by decide, by decide, ?_⟩
  intro a b h
  rcases a with _ | ⟨x, _ | ⟨y, a⟩⟩
  · simp [Example.stepsDup] at h
  · simp only [Example.stepsDup, List.cons_append, List.nil_append, List.cons.injEq] at h
    obtain ⟨hx, -⟩ := h
    rw [← hx]
    decide
  · simp [Example.stepsDup] at h

/-- C3 (amended): in a sequence of `UpdateMetrics`, `Collect` and per-metric delete
steps on a new collector, a delete removes a series only after a `Collect` that ran
while the series was in the collector, from which the series stayed until the
delete; that `Collect` visited the series, so the channel got what the visit sends,
which is a metric for the series unless the library constructor failed for it. -/
theorem removed_only_after_visit (err : prometheus.ConstMetricErr) (dimensions : Nat)
    (withtimestamp : Bool) (s : List Step) (k : String)
    (hdel : (((NewPromCollector dimensions withtimestamp).exec err s).delete k).2 = true) :
    ∃ a b e₀, s = a ++ Step.collect :: b ∧
      ((NewPromCollector dimensions withtimestamp).exec err a).mProc.Load k = some e₀ ∧
      (∀ x y, b = x ++ y →
        (((NewPromCollector dimensions withtimestamp).exec err
          (a ++ Step.collect :: x)).mProc.Load k).isSome = true) ∧
      (∀ m ∈ (PromCollector.collectVisit err
            ((NewPromCollector dimensions withtimestamp).exec err a).withtimestamp e₀).2,
        m ∈ (((NewPromCollector dimensions withtimestamp).exec err a).Collect err).2) ∧
      ((PromCollector.collectVisit err
          ((NewPromCollector dimensions withtimestamp).exec err a).withtimestamp e₀).2 = [] ↔
        err e₀.description (typeToPromType e₀.metric.Typ) e₀.metric.Value
          e₀.metric.LabelVals = true) := by
  obtain ⟨e, he, hscr⟩ := PromCollector.delete_true_Load _ k hdel
  obtain ⟨a, cu, ep, b, hs, -, -, hpers, hcol⟩ :=
    PromCollector.history err (NewPromCollector dimensions withtimestamp) rfl rfl s k e he
  obtain ⟨b₁, c, hb⟩ := List.append_of_mem (hcol hscr)
  have hsome := hpers b₁ (Step.collect :: c) hb
  cases hl : ((NewPromCollector dimensions withtimestamp).exec err
      (a ++ Step.update cu ep :: b₁)).mProc.Load k with
  | none => simp [hl] at hsome
  | some e₀ =>
    refine ⟨a ++ Step.update cu ep :: b₁, c, e₀, by rw [hs, hb]; simp, hl, ?_,
      PromCollector.Collect_contains_visit err _ k e₀ hl,
      PromCollector.collectVisit_nil_iff err _ e₀⟩
    intro x y hxy
    have := hpers (b₁ ++ Step.collect :: x) y (by rw [hb, hxy]; simp)
    simpa using this

/-- A witness for `removed_only_after_visit`: a series is created, scraped and then
deleted. -/
theorem removed_only_after_visit_witness :
    (((NewPromCollector 1 true).exec prometheus.cardinalityErr Example.stepsScraped).delete
      "m1").2 = true ∧
    ∃ a b e₀, Example.stepsScraped = a ++ Step.collect :: b ∧
      ((NewPromCollector 1 true).exec prometheus.cardinalityErr a).mProc.Load "m1"
        = some e₀ ∧
      (∀ x y, b = x ++ y →
        (((NewPromCollector 1 true).exec prometheus.cardinalityErr
          (a ++ Step.collect :: x)).mProc.Load "m1").isSome = true) ∧
      (∀ m ∈ (PromCollector.collectVisit prometheus.cardinalityErr
            ((NewPromCollector 1 true).exec prometheus.cardinalityErr a).withtimestamp e₀).2,
        m ∈ (((NewPromCollector 1 true).exec prometheus.cardinalityErr a).Collect
          prometheus.cardinalityErr).2) ∧
      ((PromCollector.collectVisit prometheus.cardinalityErr
          ((NewPromCollector 1 true).exec prometheus.cardinalityErr a).withtimestamp e₀).2
            = [] ↔
        prometheus.cardinalityErr e₀.description (typeToPromType e₀.metric.Typ)
          e₀.metric.Value e₀.metric.LabelVals = true) :=
  ⟨by decide, removed_only_after_visit prometheus.cardinalityErr 1 true
    Example.stepsScraped "m1" (by decide)⟩

/-- C4 (as stated) fails: a series is created, scraped and updated again; the
per-metric delete then removes it although no `Collect` ran after the last update:
every `Collect` of the sequence is followed by an `UpdateMetrics` of the series. -/
theorem removed_without_scrape_since_update :
    (((NewPromCollector 1 true).exec prometheus.cardinalityErr
      Example.stepsUpdatedAfterScrape).delete "m1").2 = true ∧
    ∀ a b, Example.stepsUpdatedAfterScrape = a ++ Step.collect :: b →
      ∃ c ep, Step.update c ep ∈ b ∧ c.name ++ String.join c.labelVals = "m1" := by
  refine ⟨by decide, ?_⟩
  intro a b h
  rcases a with _ | ⟨x, _ | ⟨y, a⟩⟩
  · simp [Example.stepsUpdatedAfterScrape] at h
  · simp only [Example.stepsUpdatedAfterScrape, List.cons_append, List.nil_append,
      List.cons.injEq, true_and] at h
    obtain ⟨-, hb⟩ := h
    exact ⟨{ Example.callA with t := ⟨1001⟩, value := ⟨18⟩ }, Example.ep10,
      by rw [← hb]; simp, by decide⟩
  · simp only [Example.stepsUpdatedAfterScrape, List.cons_append, List.cons.injEq] at h
    obtain ⟨-, -, h⟩ := h
    rcases a with _ | ⟨z, a⟩
    · simp at h
    · simp at h

/-- C4 (amended): in a sequence of `UpdateMetrics`, `Collect` and per-metric delete
steps on a new collector, a delete that removes a series is preceded by a `Collect`
that happened after the `UpdateMetrics` call which created the entry (it found no
entry under its cache key), and the entry has been in the collector from that call
on; the `Collect` need not come after the most recent update of the series. -/
theorem removed_only_after_scrape_since_creation (err : prometheus.ConstMetricErr)
    (dimensions : Nat) (withtimestamp : Bool) (s : List Step) (k : String)
    (hdel : (((NewPromCollector dimensions withtimestamp).exec err s).delete k).2 = true) :
    ∃ a cu ep b c, s = a ++ Step.update cu ep :: (b ++ Step.collect :: c) ∧
      ((NewPromCollector dimensions withtimestamp).exec err a).mProc.Load k = none ∧
      cu.name ++ String.join cu.labelVals = k ∧
      (∀ x y, b ++ Step.collect :: c = x ++ y →
        (((NewPromCollector dimensions withtimestamp).exec err
          (a ++ Step.update cu ep :: x)).mProc.Load k).isSome = true) := by
  obtain ⟨e, he, hscr⟩ := PromCollector.delete_true_Load _ k hdel
  obtain ⟨a, cu, ep, b, hs, hnone, hkey, hpers, hcol⟩ :=
    PromCollector.history err (NewPromCollector dimensions withtimestamp) rfl rfl s k e he
  obtain ⟨b₁, c, hb⟩ := List.append_of_mem (hcol hscr)
  exact ⟨a, cu, ep, b₁, c, by rw [hs, hb], hnone, hkey, fun x y hxy => hpers x y (hb ▸ hxy)⟩

/-- A witness for `removed_only_after_scrape_since_creation`: the series is created,
scraped, updated again and then deleted. -/
theorem removed_only_after_scrape_since_creation_witness :
    (((NewPromCollector 1 true).exec prometheus.cardinalityErr
      Example.stepsUpdatedAfterScrape).delete "m1").2 = true ∧
    ∃ a cu ep b c,
      Example.stepsUpdatedAfterScrape = a ++ Step.update cu ep :: (b ++ Step.collect :: c) ∧
      ((NewPromCollector 1 true).exec prometheus.cardinalityErr a).mProc.Load "m1" = none ∧
      cu.name ++ String.join cu.labelVals = "m1" ∧
      (∀ x y, b ++ Step.collect :: c = x ++ y →
        (((NewPromCollector 1 true).exec prometheus.cardinalityErr
          (a ++ Step.update cu ep :: x)).mProc.Load "m1").isSome = true) :=
  ⟨by decide, removed_only_after_scrape_since_creation prometheus.cardinalityErr 1 true
    Example.stepsUpdatedAfterScrape "m1" (by decide)⟩

/-! ### Scrape errors -/

namespace PromCollector

/-- The entry after a visit: marked as scraped, whatever the constructor returned. -/
theorem collectVisit_fst (err : prometheus.ConstMetricErr) (w : Bool) (e : metricProcess) :
    (collectVisit err w e).1 = { e with scrapped := true } := by
  unfold collectVisit
  simp only
  split
  · rfl
  · split_ifs <;> rfl

/-- What a visit sends, in closed form: nothing when the constructor fails, else the
one metric of the entry. -/
theorem collectVisit_snd (err : prometheus.ConstMetricErr) (w : Bool) (e : metricProcess) :
    (collectVisit err w e).2 =
      if err e.description (typeToPromType e.metric.Typ) e.metric.Value e.metric.LabelVals
          = true then []
      else [{ desc := e.description, valueType := typeToPromType e.metric.Typ,
              value := e.metric.Value, labelValues := e.metric.LabelVals,
              timestamp := if w && !e.metric.Time.isZero then some e.metric.Time
                           else none }] := by
  unfold collectVisit prometheus.NewConstMetric
  simp only
  cases he : err e.description (typeToPromType e.metric.Typ) e.metric.Value
      e.metric.LabelVals
  · cases w <;> cases hz : e.metric.Time.isZero <;>
      simp [hz, prometheus.NewMetricWithTimestamp]
  · simp

/-- Ranging over the entries sends the metrics of those the constructor accepts, in
the order of the range. -/
theorem flatMap_collectVisit (err : prometheus.ConstMetricErr) (w : Bool)
    (m : syncMap String metricProcess) :
    m.flatMap (fun kv => (collectVisit err w kv.2).2) =
      (m.filter (fun kv => !err kv.2.description (typeToPromType kv.2.metric.Typ)
          kv.2.metric.Value kv.2.metric.LabelVals)).map
        (fun kv => ({ desc := kv.2.description,
                      valueType := typeToPromType kv.2.metric.Typ,
                      value := kv.2.metric.Value, labelValues := kv.2.metric.LabelVals,
                      timestamp := if w && !kv.2.metric.Time.isZero
                                   then some kv.2.metric.Time else none } :
                    prometheus.Metric)) := by
  induction m with
  | nil => rfl
  | cons kv m ih =>
    rw [List.flatMap_cons, ih, collectVisit_snd, List.filter_cons]
    cases he : err kv.2.description (typeToPromType kv.2.metric.Typ) kv.2.metric.Value
        kv.2.metric.LabelVals <;> simp

end PromCollector

/-- C11: for every collector state and every behaviour of the library constructor,
`Collect` sends one metric for each series the constructor accepts and none for a
series it rejects, in the order of the range; a rejected series does not end the
range: every series, accepted or not, is visited and marked as scraped, and the
series after a rejected one are still sent. -/
theorem Collect_emits_exactly_constructible (err : prometheus.ConstMetricErr)
    (pc : PromCollector) :
    (pc.Collect err).2 =
      (pc.mProc.filter (fun kv => !err kv.2.description (typeToPromType kv.2.metric.Typ)
          kv.2.metric.Value kv.2.metric.LabelVals)).map
        (fun kv => ({ desc := kv.2.description,
                      valueType := typeToPromType kv.2.metric.Typ,
                      value := kv.2.metric.Value, labelValues := kv.2.metric.LabelVals,
                      timestamp := if pc.withtimestamp && !kv.2.metric.Time.isZero
                                   then some kv.2.metric.Time else none } :
                    prometheus.Metric)) ∧
    (pc.Collect err).1.mProc
      = pc.mProc.map (fun kv => (kv.1, { kv.2 with scrapped := true })) ∧
    (pc.Collect err).2.length =
      (pc.mProc.filter (fun kv => !err kv.2.description (typeToPromType kv.2.metric.Typ)
          kv.2.metric.Value kv.2.metric.LabelVals)).length := by
  have h := PromCollector.flatMap_collectVisit err pc.withtimestamp pc.mProc
  refine ⟨h, ?_, ?_⟩
  · simp only [PromCollector.Collect, PromCollector.collectVisit_fst]
  · show (pc.mProc.flatMap _).length = _
    rw [h, List.length_map]

/-! ### Exit code -/

namespace Cmd

/-- The events before the configuration file is opened are error lines of the CPU
profile. -/
theorem profile_events (cpuprofile : Option (Bool × Bool)) :
    ∀ e ∈ (match cpuprofile with
        | none => []
        | some (createFails, startFails) =>
          (if createFails then [Event.error "failed to start cpu profile"] else []) ++
          (if startFails then [Event.error "failed to start cpu profile"] else [])),
      e = Event.error "failed to start cpu profile" := by
  cases cpuprofile with
  | none => simp
  | some cs =>
    obtain ⟨c, s⟩ := cs
    cases c <;> cases s <;> simp

/-- C12 (as stated) fails: when the configuration file cannot be opened, and when
`ParseConfig` returns an error, `main` logs the error and returns; returning from
`main` ends the process with exit code 0, which is not a non-zero exit code. -/
theorem config_failure_exit_code_zero :
    ¬ (main Example.envOpenFails).exitCode ≠ 0 ∧
    ¬ (main Example.envParseFails).exitCode ≠ 0 ∧
    (main Example.envOpenFails).events = [.error "failed opening configuration file"] ∧
    (main Example.envParseFails).events = [.error "failed parsing config file"] := by
  decide

/-- C12 (amended): the exit code is 0 on every path of `main`, clean shutdown and
startup failure alike. When the configuration file cannot be opened or `ParseConfig`
returns an error, `main` logs that error as its last event and returns: no transport
or application is initialised and nothing is run. -/
theorem config_failure_ends_main (env : Env) (hl : env.loggerFails = false)
    (hf : env.openFails = true ∨ env.parseFails = true) :
    (main env).exitCode = 0 ∧
    (∃ pre, (main env).events = pre ++
        [Event.error (if env.openFails = true then "failed opening configuration file"
                      else "failed parsing config file")] ∧
      ∀ e ∈ pre, e = Event.error "failed to start cpu profile") ∧
    Event.RunTransports ∉ (main env).events ∧
    Event.RunApplications ∉ (main env).events ∧
    (∀ name, Event.InitTransport name ∉ (main env).events ∧
      Event.InitApplication name ∉ (main env).events) := by
  have hev : ∃ pre, (main env).events = pre ++
        [Event.error (if env.openFails = true then "failed opening configuration file"
                      else "failed parsing config file")] ∧
      ∀ e ∈ pre, e = Event.error "failed to start cpu profile" := by
    refine ⟨_, ?_, profile_events env.cpuprofile⟩
    unfold main
    cases ho : env.openFails
    · have hp : env.parseFails = true := by
        rcases hf with h | h
        · rw [ho] at h
          exact absurd h (by decide)
        · exact h
      simp [hl, hp]
    · simp [hl]
  have hcode : (main env).exitCode = 0 := by
    unfold main
    cases ho : env.openFails
    · have hp : env.parseFails = true := by
        rcases hf with h | h
        · rw [ho] at h
          exact absurd h (by decide)
        · exact h
      simp [hl, hp]
    · simp [hl]
  obtain ⟨pre, hpre, hall⟩ := hev
  have hnot : ∀ e, e ∈ (main env).events → ∃ msg, e = Event.error msg := by
    intro e he
    rw [hpre] at he
    rcases List.mem_append.mp he with he | he
    · exact ⟨_, hall e he⟩
    · exact ⟨_, List.mem_singleton.mp he⟩
  refine ⟨hcode, ⟨pre, hpre, hall⟩, ?_, ?_, ?_⟩
  · intro h
    obtain ⟨msg, hm⟩ := hnot _ h
    cases hm
  · intro h
    obtain ⟨msg, hm⟩ := hnot _ h
    cases hm
  · intro name
    constructor
    · intro h
      obtain ⟨msg, hm⟩ := hnot _ h
      cases hm
    · intro h
      obtain ⟨msg, hm⟩ := hnot _ h
      cases hm

/-- A witness for `config_failure_ends_main`: the configuration file does not open. -/
theorem config_failure_ends_main_witness :
    Example.envOpenFails.loggerFails = false ∧ Example.envOpenFails.openFails = true ∧
    (main Example.envOpenFails).exitCode = 0 ∧
    Event.RunTransports ∉ (main Example.envOpenFails).events :=
  have h := config_failure_ends_main Example.envOpenFails rfl (Or.inl rfl)
  ⟨rfl, rfl, h.1, h.2.2.1⟩

end Cmd

/-! ### Field names of a validation error -/

namespace config

theorem Split_ne_nil (s : Bytes) : Split s ≠ [] := by
  induction s with
  | nil => simp [Split]
  | cons c cs ih =>
    simp only [Split]
    split_ifs
    · simp
    · split <;> simp

/-- No piece of a split contains the separator. -/
theorem Split_mem_nodot (s : Bytes) : ∀ item ∈ Split s, dot ∉ item := by
  induction s with
  | nil =>
    intro item hitem
    simp [Split] at hitem
    simp [hitem]
  | cons c cs ih =>
    intro item hitem
    simp only [Split] at hitem
    split_ifs at hitem with hc
    · rcases List.mem_cons.mp hitem with h | h
      · simp [h]
      · exact ih item h
    · cases hs : Split cs with
      | nil => exact absurd hs (Split_ne_nil cs)
      | cons piece pieces =>
        rw [hs] at hitem ih
        rcases List.mem_cons.mp hitem with h | h
        · rw [h]
          intro hmem
          rcases List.mem_cons.mp hmem with h' | h'
          · exact hc h'.symm
          · exact ih piece (List.mem_cons_self _ _) h'
        · exact ih item (List.mem_cons_of_mem _ h)

theorem Split_nodot (item : Bytes) (h : dot ∉ item) : Split item = [item] := by
  induction item with
  | nil => rfl
  | cons c cs ih =>
    have hc : ¬ c = dot := fun e => h (by simp [e])
    have hcs : dot ∉ cs := fun e => h (List.mem_cons_of_mem _ e)
    simp [Split, hc, ih hcs]

theorem Split_append_dot (item s : Bytes) (h : dot ∉ item) :
    Split (item ++ dot :: s) = item :: Split s := by
  induction item with
  | nil => simp [Split]
  | cons c cs ih =>
    have hc : ¬ c = dot := fun e => h (by simp [e])
    have hcs : dot ∉ cs := fun e => h (List.mem_cons_of_mem _ e)
    simp [Split, hc, ih hcs]

/-- Splitting what `Join` made of pieces without separator gives the pieces back. -/
theorem Split_Join (items : List Bytes) (hne : items ≠ [])
    (h : ∀ item ∈ items, dot ∉ item) : Split (Join items) = items := by
  induction items with
  | nil => exact absurd rfl hne
  | cons item items ih =>
    cases items with
    | nil => exact Split_nodot item (h item (List.mem_cons_self _ _))
    | cons item₂ rest =>
      have hj : Join (item :: item₂ :: rest) = item ++ dot :: Join (item₂ :: rest) := rfl
      rw [hj, Split_append_dot _ _ (h item (List.mem_cons_self _ _)),
        ih (by simp) (fun i hi => h i (List.mem_cons_of_mem _ hi))]

theorem asciiLower_eq_dot (c : Nat) (h : asciiLower c = dot) : c = dot := by
  unfold asciiLower dot at *
  split_ifs at h with hc
  · omega
  · exact h

theorem lowerFirst_nodot (item : Bytes) (h : dot ∉ item) : dot ∉ lowerFirst item := by
  cases item with
  | nil => simp [lowerFirst]
  | cons c rest =>
    intro hmem
    simp only [lowerFirst] at hmem
    rcases List.mem_cons.mp hmem with h' | h'
    · exact h (by rw [asciiLower_eq_dot c h'.symm]; exact List.mem_cons_self _ _)
    · exact h (List.mem_cons_of_mem _ h')

/-- A round of the loop succeeds on every item that is not empty. -/
theorem camelItem_isSome (item : Bytes) (h : item ≠ []) : ∃ camel, camelItem item = some camel := by
  cases item with
  | nil => exact absurd rfl h
  | cons c rest =>
    unfold camelItem ToLowerByte
    simp only
    split_ifs <;> exact ⟨_, rfl⟩

/-- On an item that starts with an ASCII byte a round lowers that byte. -/
theorem camelItem_ascii (c : Nat) (rest : Bytes) (h : c < 128) :
    camelItem (c :: rest) = some (lowerFirst (c :: rest)) := by
  unfold camelItem ToLowerByte lowerFirst asciiLower
  simp only [h, if_true]
  split_ifs <;> rfl

theorem camelItems_isSome (items : List Bytes) (h : ∀ item ∈ items, item ≠ []) :
    ∃ ret, camelItems items = some ret ∧ ret.length = items.length := by
  induction items with
  | nil => exact ⟨[], rfl, rfl⟩
  | cons item items ih =>
    obtain ⟨camel, hc⟩ := camelItem_isSome item (h item (List.mem_cons_self _ _))
    obtain ⟨ret, hr, hlen⟩ := ih (fun i hi => h i (List.mem_cons_of_mem _ hi))
    exact ⟨camel :: ret, by simp [camelItems, hc, hr], by simp [hlen]⟩

theorem camelItems_ascii (items : List Bytes) (hne : ∀ item ∈ items, item ≠ [])
    (h : ∀ item ∈ items, ∀ c rest, item = c :: rest → c < 128) :
    camelItems items = some (items.map lowerFirst) := by
  induction items with
  | nil => rfl
  | cons item items ih =>
    cases item with
    | nil => exact absurd rfl (hne [] (List.mem_cons_self _ _))
    | cons c rest =>
      have hc := camelItem_ascii c rest (h _ (List.mem_cons_self _ _) c rest rfl)
      have hr := ih (fun i hi => hne i (List.mem_cons_of_mem _ hi))
        (fun i hi => h i (List.mem_cons_of_mem _ hi))
      simp [camelItems, hc, hr]

/-- C13 (as stated) fails: the components of the namespace `Config.Éa` are not
empty and `setCamelCase` returns, but the first byte `C3` of the second component
comes back as `EF` instead of staying as it is under ASCII lower case. -/
theorem setCamelCase_non_ascii_first_byte :
    (∀ item ∈ Split Example.fieldAccent, item ≠ []) ∧
    setCamelCase Example.fieldAccent = some [239, 137, 97] ∧
    setCamelCaseStated Example.fieldAccent = [195, 137, 97] ∧
    setCamelCase Example.fieldAccent ≠ some (setCamelCaseStated Example.fieldAccent) := by
  decide

/-- C13 (amended): for every field namespace whose dot-separated components are all
non-empty, `setCamelCase` returns without failing. When moreover every component after
the first starts with an ASCII byte, the result is the components after the first one,
each with its first byte in ASCII lower case and the other bytes unchanged, joined by
`"."`: it is made of one component fewer than the input, it is the empty string for a
single-component input, and otherwise splitting it gives those components back. -/
theorem setCamelCase_ascii_components (field : Bytes)
    (hne : ∀ item ∈ Split field, item ≠ []) :
    (∃ res, setCamelCase field = some res) ∧
    ((∀ item ∈ (Split field).tail, ∀ c rest, item = c :: rest → c < 128) →
      setCamelCase field = some (setCamelCaseStated field) ∧
      setCamelCaseStated field = Join ((Split field).tail.map lowerFirst) ∧
      ((Split field).tail.map lowerFirst).length + 1 = (Split field).length ∧
      ((Split field).length = 1 → setCamelCaseStated field = []) ∧
      (2 ≤ (Split field).length →
        Split (setCamelCaseStated field) = (Split field).tail.map lowerFirst)) := by
  cases hs : Split field with
  | nil => exact absurd hs (Split_ne_nil field)
  | cons first rest =>
    rw [hs] at hne
    obtain ⟨camel, hcamel⟩ := camelItem_isSome first (hne first (List.mem_cons_self _ _))
    have hrest : ∀ item ∈ rest, item ≠ [] := fun i hi => hne i (List.mem_cons_of_mem _ hi)
    constructor
    · obtain ⟨ret, hret, -⟩ := camelItems_isSome rest hrest
      exact ⟨Join ret, by simp [setCamelCase, hs, camelItems, hcamel, hret]⟩
    · intro hascii
      simp only [List.tail_cons] at hascii
      have hret := camelItems_ascii rest hrest hascii
      have hstated : setCamelCaseStated field = Join (rest.map lowerFirst) := by
        simp [setCamelCaseStated, hs]
      refine ⟨?_, ?_, ?_, ?_, ?_⟩
      · rw [hstated]
        simp [setCamelCase, hs, camelItems, hcamel, hret]
      · simpa using hstated
      · simp
      · intro hlen
        have hnil : rest = [] := by
          cases rest with
          | nil => rfl
          | cons r rs => simp at hlen
        rw [hstated, hnil]
        rfl
      · intro hlen
        rw [hstated]
        simp only [List.tail_cons]
        have hmem : ∀ item ∈ Split field, dot ∉ item := Split_mem_nodot field
        rw [hs] at hmem
        apply Split_Join
        · cases rest with
          | nil => simp at hlen
          | cons r rs => simp
        · intro item hitem
          obtain ⟨orig, horig, heq⟩ := List.mem_map.mp hitem
          rw [← heq]
          exact lowerFirst_nodot orig (hmem orig (List.mem_cons_of_mem _ horig))

/-- A witness for `setCamelCase_ascii_components`: the namespace `configT.Port` gives
`port`. -/
theorem setCamelCase_ascii_components_witness :
    (∀ item ∈ Split Example.fieldPort, item ≠ []) ∧
    setCamelCaseStated Example.fieldPort = ascii "port" ∧
    setCamelCase Example.fieldPort = some (setCamelCaseStated Example.fieldPort) := by
  have htail : (Split Example.fieldPort).tail = [ascii "Port"] := by decide
  have hascii : ∀ item ∈ (Split Example.fieldPort).tail, ∀ c rest, item = c :: rest →
      c < 128 := by
    intro item hitem c rest h
    rw [htail, List.mem_singleton] at hitem
    rw [hitem] at h
    have hc : c = 80 := ((List.cons.injEq _ _ _ _).mp h).1.symm
    omega
  exact ⟨by decide, by decide,
    ((setCamelCase_ascii_components Example.fieldPort (by decide)).2 hascii).1⟩

end config

end SgCore
